import Mathlib

/-!
Verification of the r1cs-file repository: a shallow embedding of the two
R1CS binary codecs (`src/r1cs-file/src/lib.rs` and `src/src/lib.rs`) and the
WTNS codec (`src/wtns-file/src/lib.rs`), with theorems about parsing and
serialization.

Byte streams are modelled as `List Nat` (each element one byte, `< 256` for
genuine byte input). Rust's fallible `Read` operations become functions into
`Except Err`; `read_exact` on a stream with too few bytes is the `eof`
error (Rust's `UnexpectedEof`). Machine integers are `Nat` with explicit
`% 2^32` / `% 2^64` where the Rust code casts.
-/

/-- Error kinds mirroring the `std::io::Error` values constructed by the
source (plus `eof` for `read_exact`/`read_u32`/`read_u64` hitting end of
input). -/
inductive Err where
  | eof
  | invalidMagic
  | unsupportedVersion
  | wrongFieldSize
  | tooManySections
  | invalidHeaderSectionSize
  | invalidWitnessSectionSize
  | expectedHeaderSection
  | expectedWitnessSection
  deriving DecidableEq, Repr

abbrev Bytes := List Nat

/-- `read_exact` into an `n`-byte buffer: succeeds only when at least `n`
bytes remain, consuming exactly `n`. -/
def readBytes (n : Nat) (b : Bytes) : Except Err (Bytes × Bytes) :=
  if n ≤ b.length then .ok (b.take n, b.drop n) else .error .eof

/-- Little-endian value of a byte list (first byte is least significant). -/
def leNat : Bytes → Nat
  | [] => 0
  | x :: t => x + 256 * leNat t

/-- `write_u32::<LittleEndian>`: the 4 little-endian bytes of `v` (a value
`≥ 2^32` is truncated, as a `u32` cast would). -/
def encodeU32 (v : Nat) : Bytes :=
  [v % 256, v / 256 % 256, v / 65536 % 256, v / 16777216 % 256]

/-- `write_u64::<LittleEndian>`: the 8 little-endian bytes of `v`. -/
def encodeU64 (v : Nat) : Bytes :=
  [v % 256, v / 256 % 256, v / 65536 % 256, v / 16777216 % 256,
   v / 4294967296 % 256, v / 1099511627776 % 256,
   v / 281474976710656 % 256, v / 72057594037927936 % 256]

/-- `read_u32::<LittleEndian>`. -/
def readU32 (b : Bytes) : Except Err (Nat × Bytes) :=
  match readBytes 4 b with
  | .error e => .error e
  | .ok (h, t) => .ok (leNat h, t)

/-- `read_u64::<LittleEndian>`. -/
def readU64 (b : Bytes) : Except Err (Nat × Bytes) :=
  match readBytes 8 b with
  | .error e => .error e
  | .ok (h, t) => .ok (leNat h, t)

/-- All elements are genuine bytes. -/
abbrev AllBytes (b : Bytes) : Prop := ∀ x ∈ b, x < 256

theorem readBytes_exact {n : Nat} (xs rest : Bytes) (h : xs.length = n) :
    readBytes n (xs ++ rest) = .ok (xs, rest) := by
  unfold readBytes
  rw [if_pos (by simp [h])]
  simp [List.take_append_of_le_length, List.drop_append_of_le_length, h,
    List.take_left', List.drop_left', h]

theorem readBytes_ok {n : Nat} {b h t : Bytes}
    (hok : readBytes n b = .ok (h, t)) :
    h = b.take n ∧ t = b.drop n ∧ n ≤ b.length := by
  unfold readBytes at hok
  split at hok
  · cases hok; exact ⟨rfl, rfl, by assumption⟩
  · cases hok

theorem leNat_encodeU32 (v : Nat) : leNat (encodeU32 v) = v % 4294967296 := by
  simp only [encodeU32, leNat]
  omega

theorem leNat_encodeU64 (v : Nat) :
    leNat (encodeU64 v) = v % 18446744073709551616 := by
  simp only [encodeU64, leNat]
  omega

theorem length_encodeU32 (v : Nat) : (encodeU32 v).length = 4 := rfl

theorem length_encodeU64 (v : Nat) : (encodeU64 v).length = 8 := rfl

theorem readU32_encode (v : Nat) (rest : Bytes) :
    readU32 (encodeU32 v ++ rest) = .ok (v % 4294967296, rest) := by
  unfold readU32
  rw [readBytes_exact (encodeU32 v) rest (length_encodeU32 v)]
  simp [leNat_encodeU32]

theorem readU64_encode (v : Nat) (rest : Bytes) :
    readU64 (encodeU64 v ++ rest) = .ok (v % 18446744073709551616, rest) := by
  unfold readU64
  rw [readBytes_exact (encodeU64 v) rest (length_encodeU64 v)]
  simp [leNat_encodeU64]

theorem leNat_lt (b : Bytes) (h : AllBytes b) : leNat b < 256 ^ b.length := by
  induction b with
  | nil => simp [leNat]
  | cons x t ih =>
    have hx : x < 256 := h x (by simp)
    have ht : leNat t < 256 ^ t.length := ih (fun y hy => h y (by simp [hy]))
    simp only [leNat, List.length_cons, pow_succ]
    calc x + 256 * leNat t < 256 + 256 * leNat t := by omega
    _ = 256 * (leNat t + 1) := by ring
    _ ≤ 256 * 256 ^ t.length := by
        exact Nat.mul_le_mul_left 256 (by omega)
    _ = 256 ^ t.length * 256 := by ring

theorem readU32_ok_bounds {b : Bytes} {v : Nat} {t : Bytes}
    (hb : AllBytes b) (hok : readU32 b = .ok (v, t)) :
    v < 4294967296 ∧ AllBytes t ∧ t.length + 4 = b.length := by
  unfold readU32 at hok
  cases hbb : readBytes 4 b with
  | error e => rw [hbb] at hok; cases hok
  | ok ht =>
    rw [hbb] at hok
    obtain ⟨h, t'⟩ := ht
    cases hok
    obtain ⟨hh, htt, hle⟩ := readBytes_ok hbb
    refine ⟨?_, ?_, ?_⟩
    · have hab : AllBytes h := by
        intro x hx; rw [hh] at hx; exact hb x (List.take_subset 4 b hx)
      have := leNat_lt h hab
      have hlen : h.length = 4 := by rw [hh]; simp [List.length_take]; omega
      rw [hlen] at this
      simpa using this
    · intro x hx; rw [htt] at hx; exact hb x (List.drop_subset 4 b hx)
    · rw [htt]; simp [List.length_drop]; omega

theorem readU64_ok_bounds {b : Bytes} {v : Nat} {t : Bytes}
    (hb : AllBytes b) (hok : readU64 b = .ok (v, t)) :
    v < 18446744073709551616 ∧ AllBytes t ∧ t.length + 8 = b.length := by
  unfold readU64 at hok
  cases hbb : readBytes 8 b with
  | error e => rw [hbb] at hok; cases hok
  | ok ht =>
    rw [hbb] at hok
    obtain ⟨h, t'⟩ := ht
    cases hok
    obtain ⟨hh, htt, hle⟩ := readBytes_ok hbb
    refine ⟨?_, ?_, ?_⟩
    · have hab : AllBytes h := by
        intro x hx; rw [hh] at hx; exact hb x (List.take_subset 8 b hx)
      have := leNat_lt h hab
      have hlen : h.length = 8 := by rw [hh]; simp [List.length_take]; omega
      rw [hlen] at this
      simpa using this
    · intro x hx; rw [htt] at hx; exact hb x (List.drop_subset 8 b hx)
    · rw [htt]; simp [List.length_drop]; omega

theorem readU32_ok_length {b : Bytes} {v : Nat} {t : Bytes}
    (hok : readU32 b = .ok (v, t)) : t.length + 4 = b.length := by
  unfold readU32 at hok
  cases hbb : readBytes 4 b with
  | error e => rw [hbb] at hok; cases hok
  | ok ht =>
    rw [hbb] at hok
    obtain ⟨h, t'⟩ := ht
    cases hok
    obtain ⟨_, htt, hle⟩ := readBytes_ok hbb
    rw [htt]; simp [List.length_drop]; omega

theorem readU64_ok_length {b : Bytes} {v : Nat} {t : Bytes}
    (hok : readU64 b = .ok (v, t)) : t.length + 8 = b.length := by
  unfold readU64 at hok
  cases hbb : readBytes 8 b with
  | error e => rw [hbb] at hok; cases hok
  | ok ht =>
    rw [hbb] at hok
    obtain ⟨h, t'⟩ := ht
    cases hok
    obtain ⟨_, htt, hle⟩ := readBytes_ok hbb
    rw [htt]; simp [List.length_drop]; omega

/-! ## R1CS codec: embedding of `src/r1cs-file/src/lib.rs` -/

namespace R1cs

/-- `const MAGIC: &[u8; 4] = b"r1cs"`. -/
def MAGIC : Bytes := [114, 49, 99, 115]

/-- `const VERSION: u32 = 1`. -/
def VERSION : Nat := 1

/-- `enum SectionType { Header = 1, Constraint = 2, Wire2LabelIdMap = 3, Unknown = u32::MAX }`. -/
inductive SectionType where
  | headerTy
  | constraintTy
  | wire2LabelIdMap
  | unknown
  deriving DecidableEq, Repr

/-- The `match` in `SectionType::read` (after `read_u32`). -/
def SectionType.ofNum (num : Nat) : SectionType :=
  if num = 1 then .headerTy
  else if num = 2 then .constraintTy
  else if num = 3 then .wire2LabelIdMap
  else .unknown

/-- The `u32` discriminant used by `SectionHeader::write` (`self.ty as u32`). -/
def SectionType.toNum : SectionType → Nat
  | .headerTy => 1
  | .constraintTy => 2
  | .wire2LabelIdMap => 3
  | .unknown => 4294967295

/-- `SectionType::read`. -/
def SectionType.read (b : Bytes) : Except Err (SectionType × Bytes) :=
  match readU32 b with
  | .error e => .error e
  | .ok (num, b1) => .ok (SectionType.ofNum num, b1)

/-- `struct SectionHeader { ty, size }`. -/
structure SectionHeader where
  ty : SectionType
  size : Nat
  deriving DecidableEq, Repr

/-- Fuel-bounded body of `SectionHeader::read`. Every recursive step of
the source's recursion first consumes the 12 tag/size bytes, so
`b.length + 1` steps always suffice; `SectionHeader.read_eq` below shows
the fuelled definition satisfies exactly the source's recurrence. -/
def SectionHeader.readAux : Nat → Bytes → Except Err (SectionHeader × Bytes)
  | 0, _ => .error .eof
  | fuel + 1, b =>
    match SectionType.read b with
    | .error e => .error e
    | .ok (ty, b1) =>
      match readU64 b1 with
      | .error e => .error e
      | .ok (size, b2) =>
        if ty = SectionType.unknown then
          SectionHeader.readAux fuel (b2.drop size)
        else
          .ok (⟨ty, size⟩, b2)

/-- `SectionHeader::read`: reads a tag and a 64-bit size; an `Unknown`
section's declared content bytes are discarded (`io::copy` of
`take(size)`, which consumes `min(size, remaining)` and cannot fail) and
reading recurses on what remains. -/
def SectionHeader.read (b : Bytes) : Except Err (SectionHeader × Bytes) :=
  SectionHeader.readAux (b.length + 1) b

theorem SectionType.read_ok_length {b : Bytes} {ty : SectionType} {t : Bytes}
    (hok : SectionType.read b = .ok (ty, t)) : t.length + 4 = b.length := by
  unfold SectionType.read at hok
  cases hu : readU32 b with
  | error e => rw [hu] at hok; cases hok
  | ok p =>
    rw [hu] at hok
    obtain ⟨num, b1⟩ := p
    cases hok
    exact readU32_ok_length hu

theorem SectionHeader.readAux_congr :
    ∀ (f g : Nat) (b : Bytes), b.length < f → b.length < g →
      SectionHeader.readAux f b = SectionHeader.readAux g b := by
  intro f
  induction f with
  | zero => intro g b hf; omega
  | succ f ih =>
    intro g b hf hg
    cases g with
    | zero => omega
    | succ g =>
      simp only [SectionHeader.readAux]
      cases hst : SectionType.read b with
      | error e => rfl
      | ok p =>
        obtain ⟨ty, b1⟩ := p
        dsimp only
        cases hsz : readU64 b1 with
        | error e => rfl
        | ok q =>
          obtain ⟨size, b2⟩ := q
          dsimp only
          by_cases hty : ty = SectionType.unknown
          · rw [if_pos hty, if_pos hty]
            have l1 := SectionType.read_ok_length hst
            have l2 := readU64_ok_length hsz
            have l3 := List.length_drop size b2
            exact ih g (b2.drop size) (by omega) (by omega)
          · rw [if_neg hty, if_neg hty]

/-- The fuelled `SectionHeader.read` satisfies the source's recursion
verbatim: read a tag and size, skip `size` bytes and retry on `Unknown`,
else return them. -/
theorem SectionHeader.read_eq (b : Bytes) :
    SectionHeader.read b =
      match SectionType.read b with
      | .error e => .error e
      | .ok (ty, b1) =>
        match readU64 b1 with
        | .error e => .error e
        | .ok (size, b2) =>
          if ty = SectionType.unknown then
            SectionHeader.read (b2.drop size)
          else
            .ok (⟨ty, size⟩, b2) := by
  unfold SectionHeader.read
  conv_lhs => rw [SectionHeader.readAux]
  cases hst : SectionType.read b with
  | error e => rfl
  | ok p =>
    obtain ⟨ty, b1⟩ := p
    dsimp only
    cases hsz : readU64 b1 with
    | error e => rfl
    | ok q =>
      obtain ⟨size, b2⟩ := q
      dsimp only
      by_cases hty : ty = SectionType.unknown
      · rw [if_pos hty, if_pos hty]
        have l1 := SectionType.read_ok_length hst
        have l2 := readU64_ok_length hsz
        have l3 := List.length_drop size b2
        exact SectionHeader.readAux_congr _ _ _ (by omega) (by omega)
      · rw [if_neg hty, if_neg hty]

/-- `SectionHeader::write`. -/
def SectionHeader.write (sh : SectionHeader) : Bytes :=
  encodeU32 sh.ty.toNum ++ encodeU64 sh.size

/-- `struct FieldElement<const FS: usize>([u8; FS])`, modelled as its byte
list; `FieldElement::read` is `read_exact` of `FS` bytes. -/
def FieldElement.read (FS : Nat) (b : Bytes) : Except Err (Bytes × Bytes) :=
  readBytes FS b

/-- `struct Header<const FS: usize>` of the R1CS file. -/
structure Header where
  prime : Bytes
  n_wires : Nat
  n_pub_out : Nat
  n_pub_in : Nat
  n_prvt_in : Nat
  n_labels : Nat
  n_constraints : Nat
  deriving DecidableEq, Repr

/-- `Header::read`: the section header's type and size are read and
discarded (`let _section = ...`), then the field size is validated against
`FS as u32` and the prime and counters are read. -/
def Header.read (FS : Nat) (b : Bytes) : Except Err (Header × Bytes) :=
  match SectionHeader.read b with
  | .error e => .error e
  | .ok (_section, b1) =>
    match readU32 b1 with
    | .error e => .error e
    | .ok (field_size, b2) =>
      if field_size ≠ FS % 4294967296 then .error .wrongFieldSize
      else
        match FieldElement.read FS b2 with
        | .error e => .error e
        | .ok (prime, b3) =>
          match readU32 b3 with
          | .error e => .error e
          | .ok (n_wires, b4) =>
            match readU32 b4 with
            | .error e => .error e
            | .ok (n_pub_out, b5) =>
              match readU32 b5 with
              | .error e => .error e
              | .ok (n_pub_in, b6) =>
                match readU32 b6 with
                | .error e => .error e
                | .ok (n_prvt_in, b7) =>
                  match readU64 b7 with
                  | .error e => .error e
                  | .ok (n_labels, b8) =>
                    match readU32 b8 with
                    | .error e => .error e
                    | .ok (n_constraints, b9) =>
                      .ok (⟨prime, n_wires, n_pub_out, n_pub_in, n_prvt_in,
                            n_labels, n_constraints⟩, b9)

/-- `Header::write`: section header with size `6*4 + 8 + FS`, then
`FS as u32`, the prime bytes, and the counters. -/
def Header.write (FS : Nat) (h : Header) : Bytes :=
  SectionHeader.write ⟨.headerTy, 6 * 4 + 8 + FS⟩ ++
  encodeU32 FS ++ h.prime ++
  encodeU32 h.n_wires ++ encodeU32 h.n_pub_out ++ encodeU32 h.n_pub_in ++
  encodeU32 h.n_prvt_in ++ encodeU64 h.n_labels ++ encodeU32 h.n_constraints

/-- One factor of a linear combination: `(FieldElement<FS>, u32)`. -/
abbrev Factor := Bytes × Nat

/-- The `for _ in 0..n` loop of `Constraint::read_combination`: reads `n`
pairs of (4-byte index, `FS`-byte coefficient), pushing `(factor, index)`. -/
def readFactors (FS : Nat) : Nat → Bytes → Except Err (List Factor × Bytes)
  | 0, b => .ok ([], b)
  | n + 1, b =>
    match readU32 b with
    | .error e => .error e
    | .ok (index, b1) =>
      match FieldElement.read FS b1 with
      | .error e => .error e
      | .ok (factor, b2) =>
        match readFactors FS n b2 with
        | .error e => .error e
        | .ok (factors, b3) => .ok ((factor, index) :: factors, b3)

/-- `Constraint::read_combination`. -/
def readCombination (FS : Nat) (b : Bytes) : Except Err (List Factor × Bytes) :=
  match readU32 b with
  | .error e => .error e
  | .ok (n, b1) => readFactors FS n b1

/-- `struct Constraint<const FS: usize>(Vec<..>, Vec<..>, Vec<..>)`:
a tuple struct of three linear combinations. -/
structure Constraint where
  c0 : List Factor
  c1 : List Factor
  c2 : List Factor
  deriving DecidableEq, Repr

/-- `Constraint::read`. -/
def Constraint.read (FS : Nat) (b : Bytes) : Except Err (Constraint × Bytes) :=
  match readCombination FS b with
  | .error e => .error e
  | .ok (a, b1) =>
    match readCombination FS b1 with
    | .error e => .error e
    | .ok (bb, b2) =>
      match readCombination FS b2 with
      | .error e => .error e
      | .ok (c, b3) => .ok (⟨a, bb, c⟩, b3)

/-- Body of the closure in `Constraint::write` after the length word:
each factor as index then coefficient bytes. -/
def writeFactors : List Factor → Bytes
  | [] => []
  | (factor, index) :: t => encodeU32 index ++ factor ++ writeFactors t

/-- The closure in `Constraint::write`: `comb.len() as u32` then the
factors. -/
def writeCombination (comb : List Factor) : Bytes :=
  encodeU32 comb.length ++ writeFactors comb

/-- `Constraint::write`. -/
def Constraint.write (c : Constraint) : Bytes :=
  writeCombination c.c0 ++ writeCombination c.c1 ++ writeCombination c.c2

/-- `Constraint::size`: per combination, the coefficient byte lengths plus
4 bytes per index, plus `3*4` for the three length words. -/
def Constraint.size (c : Constraint) : Nat :=
  ((c.c0.map (fun f => f.1.length)).sum + c.c0.length * 4) +
  ((c.c1.map (fun f => f.1.length)).sum + c.c1.length * 4) +
  ((c.c2.map (fun f => f.1.length)).sum + c.c2.length * 4) + 3 * 4

/-- The `for _ in 0..n_constraints` loop of `Constraints::read`. -/
def readConstraintList (FS : Nat) : Nat → Bytes → Except Err (List Constraint × Bytes)
  | 0, b => .ok ([], b)
  | n + 1, b =>
    match Constraint.read FS b with
    | .error e => .error e
    | .ok (c, b1) =>
      match readConstraintList FS n b1 with
      | .error e => .error e
      | .ok (cs, b2) => .ok (c :: cs, b2)

/-- `Constraints::read`: reads (and discards) a section header, then
exactly `n_constraints` constraints — the declared section size is unused. -/
def Constraints.read (FS n_constraints : Nat) (b : Bytes) :
    Except Err (List Constraint × Bytes) :=
  match SectionHeader.read b with
  | .error e => .error e
  | .ok (_section, b1) => readConstraintList FS n_constraints b1

/-- The body loop of `Constraints::write`. -/
def writeConstraintList : List Constraint → Bytes
  | [] => []
  | c :: t => Constraint.write c ++ writeConstraintList t

/-- `Constraints::write`: section header with the summed sizes, then the
constraints. -/
def Constraints.write (cs : List Constraint) : Bytes :=
  SectionHeader.write ⟨.constraintTy, (cs.map Constraint.size).sum⟩ ++
  writeConstraintList cs

/-- The `for _ in 0..num_labels` loop of `WireMap::read`. -/
def readLabels : Nat → Bytes → Except Err (List Nat × Bytes)
  | 0, b => .ok ([], b)
  | n + 1, b =>
    match readU64 b with
    | .error e => .error e
    | .ok (l, b1) =>
      match readLabels n b1 with
      | .error e => .error e
      | .ok (ls, b2) => .ok (l :: ls, b2)

/-- `WireMap::read`: the number of labels is the declared section size
divided by 8 (integer division). -/
def WireMap.read (b : Bytes) : Except Err (List Nat × Bytes) :=
  match SectionHeader.read b with
  | .error e => .error e
  | .ok (sec, b1) => readLabels (sec.size / 8) b1

/-- The body loop of `WireMap::write`. -/
def writeLabels : List Nat → Bytes
  | [] => []
  | l :: t => encodeU64 l ++ writeLabels t

/-- `WireMap::write`. -/
def WireMap.write (m : List Nat) : Bytes :=
  SectionHeader.write ⟨.wire2LabelIdMap, m.length * 8⟩ ++ writeLabels m

/-- `struct R1csFile<const FS: usize>`. -/
structure R1csFile where
  header : Header
  constraints : List Constraint
  map : List Nat
  deriving DecidableEq, Repr

/-- `R1csFile::read`: magic, version (must equal 1), section count (read
and discarded), then Header, Constraints (count from the header) and
WireMap. The pair's second component is the reader's remaining input. -/
def R1csFile.read (FS : Nat) (b : Bytes) : Except Err (R1csFile × Bytes) :=
  match readBytes 4 b with
  | .error e => .error e
  | .ok (magic, b1) =>
    if magic ≠ MAGIC then .error .invalidMagic
    else
      match readU32 b1 with
      | .error e => .error e
      | .ok (version, b2) =>
        if version ≠ VERSION then .error .unsupportedVersion
        else
          match readU32 b2 with
          | .error e => .error e
          | .ok (_num_sections, b3) =>
            match Header.read FS b3 with
            | .error e => .error e
            | .ok (header, b4) =>
              match Constraints.read FS header.n_constraints b4 with
              | .error e => .error e
              | .ok (constraints, b5) =>
                match WireMap.read b5 with
                | .error e => .error e
                | .ok (map, b6) => .ok (⟨header, constraints, map⟩, b6)

/-- `R1csFile::write`: magic, version, a hard-coded section count of 3,
then the three sections. -/
def R1csFile.write (FS : Nat) (f : R1csFile) : Bytes :=
  MAGIC ++ encodeU32 VERSION ++ encodeU32 3 ++
  Header.write FS f.header ++ Constraints.write f.constraints ++
  WireMap.write f.map

end R1cs

/-! ## WTNS codec: embedding of `src/wtns-file/src/lib.rs` -/

namespace Wtns

/-- `const MAGIC: &[u8; 4] = b"wtns"`. -/
def MAGIC : Bytes := [119, 116, 110, 115]

/-- `enum SectionType { Header = 1, Witness = 2, Unknown = u32::MAX }`. -/
inductive SectionType where
  | headerTy
  | witnessTy
  | unknown
  deriving DecidableEq, Repr

/-- The `match` in the WTNS `SectionType::read`. -/
def SectionType.ofNum (num : Nat) : SectionType :=
  if num = 1 then .headerTy
  else if num = 2 then .witnessTy
  else .unknown

/-- WTNS `SectionType::read`: a plain tag read; unlike R1CS there is no
unknown-section skipping here. -/
def SectionType.read (b : Bytes) : Except Err (SectionType × Bytes) :=
  match readU32 b with
  | .error e => .error e
  | .ok (num, b1) => .ok (SectionType.ofNum num, b1)

/-- `FieldElement::read` (WTNS copy, identical to the R1CS one). -/
def FieldElement.read (FS : Nat) (b : Bytes) : Except Err (Bytes × Bytes) :=
  readBytes FS b

/-- `struct Header<const FS: usize>` of the WTNS file. -/
structure Header where
  field_size : Nat
  prime : Bytes
  witness_len : Nat
  deriving DecidableEq, Repr

/-- WTNS `Header::read`: the tag must be exactly `Header` (an `Unknown`
tag is an error, not skipped); the declared size must be exactly
`4 + FS + 4`; the embedded field size must equal `FS as u32`. -/
def Header.read (FS : Nat) (b : Bytes) : Except Err (Header × Bytes) :=
  match SectionType.read b with
  | .error e => .error e
  | .ok (sec_type, b1) =>
    if sec_type ≠ SectionType.headerTy then .error .expectedHeaderSection
    else
      match readU64 b1 with
      | .error e => .error e
      | .ok (sec_size, b2) =>
        if sec_size ≠ 4 + FS + 4 then .error .invalidHeaderSectionSize
        else
          match readU32 b2 with
          | .error e => .error e
          | .ok (field_size, b3) =>
            match FieldElement.read FS b3 with
            | .error e => .error e
            | .ok (prime, b4) =>
              if field_size ≠ FS % 4294967296 then .error .wrongFieldSize
              else
                match readU32 b4 with
                | .error e => .error e
                | .ok (witness_len, b5) =>
                  .ok (⟨field_size, prime, witness_len⟩, b5)

/-- WTNS `Header::write`. -/
def Header.write (FS : Nat) (h : Header) : Bytes :=
  encodeU32 1 ++ encodeU64 (4 + FS + 4) ++
  encodeU32 FS ++ h.prime ++ encodeU32 h.witness_len

/-- The `for _ in 0..header.witness_len` loop of `Witness::read`. -/
def readElements (FS : Nat) : Nat → Bytes → Except Err (List Bytes × Bytes)
  | 0, b => .ok ([], b)
  | n + 1, b =>
    match FieldElement.read FS b with
    | .error e => .error e
    | .ok (e1, b1) =>
      match readElements FS n b1 with
      | .error e => .error e
      | .ok (es, b2) => .ok (e1 :: es, b2)

/-- `Witness::read`: the tag must be exactly `Witness`; the declared size
must be exactly `witness_len * FS`; then exactly `witness_len` field
elements are decoded. -/
def Witness.read (FS : Nat) (header : Header) (b : Bytes) :
    Except Err (List Bytes × Bytes) :=
  match SectionType.read b with
  | .error e => .error e
  | .ok (sec_type, b1) =>
    if sec_type ≠ SectionType.witnessTy then .error .expectedWitnessSection
    else
      match readU64 b1 with
      | .error e => .error e
      | .ok (sec_size, b2) =>
        if sec_size ≠ header.witness_len * FS then .error .invalidWitnessSectionSize
        else readElements FS header.witness_len b2

/-- `struct WtnsFile<const FS: usize>`. -/
structure WtnsFile where
  version : Nat
  header : Header
  witness : List Bytes
  deriving DecidableEq, Repr

/-- `WtnsFile::from_vec`: version 1, `field_size` from `FS as u32`,
`witness_len` from `witness.len() as u32` (a `usize → u32` cast, hence
the `% 2^32`). -/
def WtnsFile.from_vec (FS : Nat) (witness : List Bytes) (prime : Bytes) : WtnsFile :=
  { version := 1
    header :=
      { field_size := FS % 4294967296
        prime := prime
        witness_len := witness.length % 4294967296 }
    witness := witness }

/-- `WtnsFile::read`: magic, version (any value `≤ 2` accepted), section
count (values `> 2` rejected), then Header and Witness. -/
def WtnsFile.read (FS : Nat) (b : Bytes) : Except Err (WtnsFile × Bytes) :=
  match readBytes 4 b with
  | .error e => .error e
  | .ok (magic, b1) =>
    if magic ≠ MAGIC then .error .invalidMagic
    else
      match readU32 b1 with
      | .error e => .error e
      | .ok (version, b2) =>
        if version > 2 then .error .unsupportedVersion
        else
          match readU32 b2 with
          | .error e => .error e
          | .ok (num_sections, b3) =>
            if num_sections > 2 then .error .tooManySections
            else
              match Header.read FS b3 with
              | .error e => .error e
              | .ok (header, b4) =>
                match Witness.read FS header b4 with
                | .error e => .error e
                | .ok (witness, b5) => .ok (⟨version, header, witness⟩, b5)

end Wtns

/-! ## Legacy R1CS codec: embedding of `src/src/lib.rs`

The root crate's `SectionType::parse`, `SectionHeader::parse`,
`FieldElement::parse`, `Header::parse`/`serialize` and
`WireMap::parse`/`serialize` are textually identical to the `r1cs-file`
crate's `read`/`write` counterparts, so the `R1cs` embeddings above also
embed them. The parts that differ — the `Constraint` struct (an array
`combinations: [Vec<(FieldElement, u32)>; 3]` instead of a tuple struct),
its `parse`/`serialize`/`size`, and everything that carries a `Constraint`
value — are embedded separately here. -/

namespace R1cs0

/-- `struct Constraint<const FS: usize> { combinations: [Vec<(FieldElement<FS>, u32)>; 3] }`:
the array of three linear combinations is modelled as a triple. -/
structure Constraint where
  combinations : List R1cs.Factor × List R1cs.Factor × List R1cs.Factor
  deriving DecidableEq, Repr

/-- `Constraint::parse`: three combinations into the array. -/
def Constraint.parse (FS : Nat) (b : Bytes) : Except Err (Constraint × Bytes) :=
  match R1cs.readCombination FS b with
  | .error e => .error e
  | .ok (a, b1) =>
    match R1cs.readCombination FS b1 with
    | .error e => .error e
    | .ok (bb, b2) =>
      match R1cs.readCombination FS b2 with
      | .error e => .error e
      | .ok (c, b3) => .ok (⟨(a, bb, c)⟩, b3)

/-- `Constraint::serialize`: `for comb in &self.combinations`, each
combination as its length word then its factors. -/
def Constraint.serialize (c : Constraint) : Bytes :=
  R1cs.writeCombination c.combinations.1 ++
  R1cs.writeCombination c.combinations.2.1 ++
  R1cs.writeCombination c.combinations.2.2

/-- `Constraint::size`: the summed per-combination byte counts plus
`combinations.len() * 4` (the three length words). -/
def Constraint.size (c : Constraint) : Nat :=
  (((c.combinations.1.map (fun f => f.1.length)).sum + c.combinations.1.length * 4) +
   ((c.combinations.2.1.map (fun f => f.1.length)).sum + c.combinations.2.1.length * 4) +
   ((c.combinations.2.2.map (fun f => f.1.length)).sum + c.combinations.2.2.length * 4)) +
  3 * 4

/-- The `for _ in 0..n_constraints` loop of the legacy `Constraints::parse`. -/
def parseConstraintList (FS : Nat) : Nat → Bytes → Except Err (List Constraint × Bytes)
  | 0, b => .ok ([], b)
  | n + 1, b =>
    match Constraint.parse FS b with
    | .error e => .error e
    | .ok (c, b1) =>
      match parseConstraintList FS n b1 with
      | .error e => .error e
      | .ok (cs, b2) => .ok (c :: cs, b2)

/-- Legacy `Constraints::parse`. -/
def Constraints.parse (FS n_constraints : Nat) (b : Bytes) :
    Except Err (List Constraint × Bytes) :=
  match R1cs.SectionHeader.read b with
  | .error e => .error e
  | .ok (_section, b1) => parseConstraintList FS n_constraints b1

/-- The body loop of the legacy `Constraints::serialize`. -/
def serializeConstraintList : List Constraint → Bytes
  | [] => []
  | c :: t => Constraint.serialize c ++ serializeConstraintList t

/-- Legacy `Constraints::serialize`. -/
def Constraints.serialize (cs : List Constraint) : Bytes :=
  R1cs.SectionHeader.write ⟨.constraintTy, (cs.map Constraint.size).sum⟩ ++
  serializeConstraintList cs

/-- Legacy `struct R1csFile<const FS: usize>`. -/
structure R1csFile where
  header : R1cs.Header
  constraints : List Constraint
  map : List Nat
  deriving DecidableEq, Repr

/-- Legacy `R1csFile::parse`. -/
def R1csFile.parse (FS : Nat) (b : Bytes) : Except Err (R1csFile × Bytes) :=
  match readBytes 4 b with
  | .error e => .error e
  | .ok (magic, b1) =>
    if magic ≠ R1cs.MAGIC then .error .invalidMagic
    else
      match readU32 b1 with
      | .error e => .error e
      | .ok (version, b2) =>
        if version ≠ R1cs.VERSION then .error .unsupportedVersion
        else
          match readU32 b2 with
          | .error e => .error e
          | .ok (_num_sections, b3) =>
            match R1cs.Header.read FS b3 with
            | .error e => .error e
            | .ok (header, b4) =>
              match Constraints.parse FS header.n_constraints b4 with
              | .error e => .error e
              | .ok (constraints, b5) =>
                match R1cs.WireMap.read b5 with
                | .error e => .error e
                | .ok (map, b6) => .ok (⟨header, constraints, map⟩, b6)

/-- Legacy `R1csFile::serialize`: builds the output buffer directly. -/
def R1csFile.serialize (FS : Nat) (f : R1csFile) : Bytes :=
  R1cs.MAGIC ++ encodeU32 R1cs.VERSION ++ encodeU32 3 ++
  R1cs.Header.write FS f.header ++ Constraints.serialize f.constraints ++
  R1cs.WireMap.write f.map

end R1cs0

/-! ## Generic instances and composition lemmas -/

instance {ε α : Type} [DecidableEq ε] [DecidableEq α] : DecidableEq (Except ε α) := by
  intro a b
  cases a <;> cases b
  case error.error e1 e2 =>
    exact if h : e1 = e2 then .isTrue (by rw [h])
      else .isFalse (by intro hc; cases hc; exact h rfl)
  case error.ok e1 a2 => exact .isFalse (by intro hc; cases hc)
  case ok.error a1 e2 => exact .isFalse (by intro hc; cases hc)
  case ok.ok a1 a2 =>
    exact if h : a1 = a2 then .isTrue (by rw [h])
      else .isFalse (by intro hc; cases hc; exact h rfl)

theorem readBytes_ok_allBytes {n : Nat} {b h t : Bytes}
    (hb : AllBytes b) (hok : readBytes n b = .ok (h, t)) :
    AllBytes h ∧ AllBytes t := by
  obtain ⟨hh, htt, hle⟩ := readBytes_ok hok
  constructor
  · intro x hx; rw [hh] at hx; exact hb x (List.take_subset n b hx)
  · intro x hx; rw [htt] at hx; exact hb x (List.drop_subset n b hx)

namespace R1cs

theorem sectionTypeRead_encode (n : Nat) (rest : Bytes) :
    SectionType.read (encodeU32 n ++ rest) =
      .ok (SectionType.ofNum (n % 4294967296), rest) := by
  unfold SectionType.read
  rw [readU32_encode]

theorem SectionType.ofNum_toNum :
    ∀ ty : SectionType, SectionType.ofNum ty.toNum = ty := by
  intro ty; cases ty <;> rfl

theorem SectionType.toNum_lt (ty : SectionType) : ty.toNum < 4294967296 := by
  cases ty <;> simp [SectionType.toNum]

/-- Reading back a written section header for a recognized type: the tag
is decoded to the same type and the size comes back modulo `2^64`. -/
theorem sectionHeaderRead_write (ty : SectionType) (hty : ty ≠ .unknown)
    (s : Nat) (rest : Bytes) :
    SectionHeader.read (SectionHeader.write ⟨ty, s⟩ ++ rest) =
      .ok (⟨ty, s % 18446744073709551616⟩, rest) := by
  rw [SectionHeader.read_eq]
  unfold SectionHeader.write
  rw [List.append_assoc, sectionTypeRead_encode]
  dsimp only
  rw [Nat.mod_eq_of_lt (SectionType.toNum_lt ty), SectionType.ofNum_toNum]
  rw [readU64_encode]
  dsimp only
  rw [if_neg hty]

/-- A successful `SectionHeader.read` on genuine byte input yields a size
below `2^64` and a remainder that is a suffix of genuine bytes. -/
theorem SectionHeader.read_ok_bounds :
    ∀ (b : Bytes) (sh : SectionHeader) (t : Bytes), AllBytes b →
      SectionHeader.read b = .ok (sh, t) →
      sh.size < 18446744073709551616 ∧ AllBytes t ∧ t.length ≤ b.length := by
  have main : ∀ (fuel : Nat) (b : Bytes) (sh : SectionHeader) (t : Bytes),
      AllBytes b → SectionHeader.readAux fuel b = .ok (sh, t) →
      sh.size < 18446744073709551616 ∧ AllBytes t ∧ t.length ≤ b.length := by
    intro fuel
    induction fuel with
    | zero => intro b sh t _ hok; cases hok
    | succ fuel ih =>
      intro b sh t hb hok
      simp only [SectionHeader.readAux] at hok
      cases hst : SectionType.read b with
      | error e => rw [hst] at hok; cases hok
      | ok p =>
        rw [hst] at hok
        obtain ⟨ty, b1⟩ := p
        have hb1 : AllBytes b1 ∧ b1.length + 4 = b.length := by
          unfold SectionType.read at hst
          cases hu : readU32 b with
          | error e => rw [hu] at hst; cases hst
          | ok q =>
            rw [hu] at hst
            obtain ⟨num, b1'⟩ := q
            cases hst
            obtain ⟨_, h2, h3⟩ := readU32_ok_bounds hb hu
            exact ⟨h2, h3⟩
        dsimp only at hok
        cases hsz : readU64 b1 with
        | error e => rw [hsz] at hok; cases hok
        | ok q =>
          rw [hsz] at hok
          obtain ⟨size, b2⟩ := q
          obtain ⟨hslt, hb2, hl2⟩ := readU64_ok_bounds hb1.1 hsz
          dsimp only at hok
          by_cases hty : ty = SectionType.unknown
          · rw [if_pos hty] at hok
            have hdrop : AllBytes (b2.drop size) := by
              intro x hx; exact hb2 x (List.drop_subset size b2 hx)
            obtain ⟨r1, r2, r3⟩ := ih (b2.drop size) sh t hdrop hok
            have := List.length_drop size b2
            exact ⟨r1, r2, by omega⟩
          · rw [if_neg hty] at hok
            cases hok
            exact ⟨hslt, hb2, by omega⟩
  intro b sh t hb hok
  exact main (b.length + 1) b sh t hb hok

end R1cs

namespace R1cs

/-- Well-formedness of an R1CS header as the in-memory Rust struct
guarantees it: the prime occupies exactly `FS` bytes, the `u32` counters
fit 32 bits and `n_labels` fits 64. -/
def Header.WF (FS : Nat) (h : Header) : Prop :=
  h.prime.length = FS ∧ h.n_wires < 4294967296 ∧ h.n_pub_out < 4294967296 ∧
  h.n_pub_in < 4294967296 ∧ h.n_prvt_in < 4294967296 ∧
  h.n_labels < 18446744073709551616 ∧ h.n_constraints < 4294967296

/-- Well-formedness of one linear combination: its length fits a `u32`
and every factor is an `FS`-byte coefficient with a `u32` index. -/
def CombWF (FS : Nat) (l : List Factor) : Prop :=
  l.length < 4294967296 ∧ ∀ f ∈ l, f.1.length = FS ∧ f.2 < 4294967296

/-- Well-formedness of a constraint: all three combinations. -/
def Constraint.WF (FS : Nat) (c : Constraint) : Prop :=
  CombWF FS c.c0 ∧ CombWF FS c.c1 ∧ CombWF FS c.c2

/-- Well-formedness of a whole R1CS document: header bounds, the
constraint count matching the header (which `read` guarantees and
`read`-after-`write` relies on), per-constraint bounds, and `u64` labels. -/
def R1csFile.WF (FS : Nat) (f : R1csFile) : Prop :=
  Header.WF FS f.header ∧
  f.constraints.length = f.header.n_constraints ∧
  (∀ c ∈ f.constraints, Constraint.WF FS c) ∧
  (∀ l ∈ f.map, l < 18446744073709551616) ∧
  f.map.length * 8 < 18446744073709551616

theorem headerRead_write (FS : Nat) (h : Header) (rest : Bytes)
    (hWF : Header.WF FS h) :
    Header.read FS (Header.write FS h ++ rest) = .ok (h, rest) := by
  obtain ⟨hp, h1, h2, h3, h4, h5, h6⟩ := hWF
  unfold Header.write
  unfold Header.read
  simp only [List.append_assoc]
  rw [sectionHeaderRead_write .headerTy (by intro hc; cases hc) _ _]
  dsimp only
  rw [readU32_encode]
  dsimp only
  rw [if_neg (by simp)]
  unfold FieldElement.read
  rw [readBytes_exact h.prime _ hp]
  dsimp only
  rw [readU32_encode, Nat.mod_eq_of_lt h1]
  dsimp only
  rw [readU32_encode, Nat.mod_eq_of_lt h2]
  dsimp only
  rw [readU32_encode, Nat.mod_eq_of_lt h3]
  dsimp only
  rw [readU32_encode, Nat.mod_eq_of_lt h4]
  dsimp only
  rw [readU64_encode, Nat.mod_eq_of_lt h5]
  dsimp only
  rw [readU32_encode, Nat.mod_eq_of_lt h6]

theorem readFactors_write (FS : Nat) (l : List Factor) (rest : Bytes)
    (h : ∀ f ∈ l, f.1.length = FS ∧ f.2 < 4294967296) :
    readFactors FS l.length (writeFactors l ++ rest) = .ok (l, rest) := by
  induction l with
  | nil => simp [writeFactors, readFactors]
  | cons f t ih =>
    obtain ⟨factor, index⟩ := f
    obtain ⟨hlen, hidx⟩ := h (factor, index) (by simp)
    simp only [writeFactors, List.length_cons, readFactors, List.append_assoc]
    rw [readU32_encode, Nat.mod_eq_of_lt hidx]
    dsimp only
    unfold FieldElement.read
    rw [readBytes_exact factor _ hlen]
    dsimp only
    rw [ih (fun g hg => h g (by simp [hg]))]

theorem readCombination_write (FS : Nat) (l : List Factor) (rest : Bytes)
    (h : CombWF FS l) :
    readCombination FS (writeCombination l ++ rest) = .ok (l, rest) := by
  obtain ⟨hlt, hf⟩ := h
  unfold writeCombination readCombination
  rw [List.append_assoc, readU32_encode, Nat.mod_eq_of_lt hlt]
  dsimp only
  exact readFactors_write FS l rest hf

theorem constraintRead_write (FS : Nat) (c : Constraint) (rest : Bytes)
    (h : Constraint.WF FS c) :
    Constraint.read FS (Constraint.write c ++ rest) = .ok (c, rest) := by
  obtain ⟨h0, h1, h2⟩ := h
  unfold Constraint.write Constraint.read
  simp only [List.append_assoc]
  rw [readCombination_write FS c.c0 _ h0]
  dsimp only
  rw [readCombination_write FS c.c1 _ h1]
  dsimp only
  rw [readCombination_write FS c.c2 _ h2]

theorem readConstraintList_write (FS : Nat) (cs : List Constraint) (rest : Bytes)
    (h : ∀ c ∈ cs, Constraint.WF FS c) :
    readConstraintList FS cs.length (writeConstraintList cs ++ rest) = .ok (cs, rest) := by
  induction cs with
  | nil => simp [writeConstraintList, readConstraintList]
  | cons c t ih =>
    simp only [writeConstraintList, List.length_cons, readConstraintList,
      List.append_assoc]
    rw [constraintRead_write FS c _ (h c (by simp))]
    dsimp only
    rw [ih (fun d hd => h d (by simp [hd]))]

theorem constraintsRead_write (FS : Nat) (cs : List Constraint) (rest : Bytes)
    (h : ∀ c ∈ cs, Constraint.WF FS c) :
    Constraints.read FS cs.length (Constraints.write cs ++ rest) = .ok (cs, rest) := by
  unfold Constraints.write Constraints.read
  rw [List.append_assoc]
  rw [sectionHeaderRead_write .constraintTy (by intro hc; cases hc) _ _]
  dsimp only
  exact readConstraintList_write FS cs rest h

theorem readLabels_write (m : List Nat) (rest : Bytes)
    (h : ∀ l ∈ m, l < 18446744073709551616) :
    readLabels m.length (writeLabels m ++ rest) = .ok (m, rest) := by
  induction m with
  | nil => simp [writeLabels, readLabels]
  | cons l t ih =>
    simp only [writeLabels, List.length_cons, readLabels, List.append_assoc]
    rw [readU64_encode, Nat.mod_eq_of_lt (h l (by simp))]
    dsimp only
    rw [ih (fun x hx => h x (by simp [hx]))]

theorem wireMapRead_write (m : List Nat) (rest : Bytes)
    (h : ∀ l ∈ m, l < 18446744073709551616)
    (hlen : m.length * 8 < 18446744073709551616) :
    WireMap.read (WireMap.write m ++ rest) = .ok (m, rest) := by
  unfold WireMap.write WireMap.read
  rw [List.append_assoc]
  rw [sectionHeaderRead_write .wire2LabelIdMap (by intro hc; cases hc) _ _]
  dsimp only
  rw [Nat.mod_eq_of_lt hlen, Nat.mul_div_cancel m.length (by omega)]
  exact readLabels_write m rest h

/-- Reading back a written document recovers it exactly, with the whole
output consumed. -/
theorem r1csRead_write (FS : Nat) (f : R1csFile) (hWF : R1csFile.WF FS f) :
    R1csFile.read FS (R1csFile.write FS f) = .ok (f, []) := by
  obtain ⟨hh, hcount, hcs, hm, hmlen⟩ := hWF
  unfold R1csFile.write R1csFile.read
  simp only [List.append_assoc]
  rw [readBytes_exact MAGIC _ (by rfl)]
  dsimp only
  rw [if_neg (by simp)]
  rw [readU32_encode]
  dsimp only
  rw [if_neg (by simp [VERSION])]
  rw [readU32_encode]
  dsimp only
  rw [headerRead_write FS f.header _ hh]
  dsimp only
  rw [← hcount]
  rw [constraintsRead_write FS f.constraints _ hcs]
  dsimp only
  have hw := wireMapRead_write f.map [] hm hmlen
  rw [List.append_nil] at hw
  rw [hw]

end R1cs

namespace R1cs

theorem headerRead_ok_wf {FS : Nat} {b : Bytes} {h : Header} {t : Bytes}
    (hb : AllBytes b) (hok : Header.read FS b = .ok (h, t)) :
    Header.WF FS h ∧ AllBytes t := by
  unfold Header.read at hok
  cases hsec : SectionHeader.read b with
  | error e => rw [hsec] at hok; cases hok
  | ok p =>
    rw [hsec] at hok
    obtain ⟨sh, b1⟩ := p
    obtain ⟨_, hb1, _⟩ := SectionHeader.read_ok_bounds b sh b1 hb hsec
    dsimp only at hok
    cases hfs : readU32 b1 with
    | error e => rw [hfs] at hok; cases hok
    | ok q =>
      rw [hfs] at hok
      obtain ⟨field_size, b2⟩ := q
      obtain ⟨_, hb2, _⟩ := readU32_ok_bounds hb1 hfs
      dsimp only at hok
      split at hok
      · cases hok
      · cases hpr : FieldElement.read FS b2 with
        | error e => rw [hpr] at hok; cases hok
        | ok r =>
          rw [hpr] at hok
          obtain ⟨prime, b3⟩ := r
          unfold FieldElement.read at hpr
          obtain ⟨hpeq, hb3eq, hple⟩ := readBytes_ok hpr
          have hplen : prime.length = FS := by
            rw [hpeq]; simp [List.length_take]; omega
          have hb3 : AllBytes b3 := by
            intro x hx; rw [hb3eq] at hx
            exact hb2 x (List.drop_subset FS b2 hx)
          dsimp only at hok
          cases h1 : readU32 b3 with
          | error e => rw [h1] at hok; cases hok
          | ok s1 =>
            rw [h1] at hok
            obtain ⟨n_wires, b4⟩ := s1
            obtain ⟨hw1, hb4, _⟩ := readU32_ok_bounds hb3 h1
            dsimp only at hok
            cases h2 : readU32 b4 with
            | error e => rw [h2] at hok; cases hok
            | ok s2 =>
              rw [h2] at hok
              obtain ⟨n_pub_out, b5⟩ := s2
              obtain ⟨hw2, hb5, _⟩ := readU32_ok_bounds hb4 h2
              dsimp only at hok
              cases h3 : readU32 b5 with
              | error e => rw [h3] at hok; cases hok
              | ok s3 =>
                rw [h3] at hok
                obtain ⟨n_pub_in, b6⟩ := s3
                obtain ⟨hw3, hb6, _⟩ := readU32_ok_bounds hb5 h3
                dsimp only at hok
                cases h4 : readU32 b6 with
                | error e => rw [h4] at hok; cases hok
                | ok s4 =>
                  rw [h4] at hok
                  obtain ⟨n_prvt_in, b7⟩ := s4
                  obtain ⟨hw4, hb7, _⟩ := readU32_ok_bounds hb6 h4
                  dsimp only at hok
                  cases h5 : readU64 b7 with
                  | error e => rw [h5] at hok; cases hok
                  | ok s5 =>
                    rw [h5] at hok
                    obtain ⟨n_labels, b8⟩ := s5
                    obtain ⟨hw5, hb8, _⟩ := readU64_ok_bounds hb7 h5
                    dsimp only at hok
                    cases h6 : readU32 b8 with
                    | error e => rw [h6] at hok; cases hok
                    | ok s6 =>
                      rw [h6] at hok
                      obtain ⟨n_constraints, b9⟩ := s6
                      obtain ⟨hw6, hb9, _⟩ := readU32_ok_bounds hb8 h6
                      dsimp only at hok
                      cases hok
                      exact ⟨⟨hplen, hw1, hw2, hw3, hw4, hw5, hw6⟩, hb9⟩

theorem readFactors_ok {FS : Nat} : ∀ {n : Nat} {b : Bytes} {l : List Factor} {t : Bytes},
    AllBytes b → readFactors FS n b = .ok (l, t) →
    l.length = n ∧ (∀ f ∈ l, f.1.length = FS ∧ f.2 < 4294967296) ∧ AllBytes t := by
  intro n
  induction n with
  | zero =>
    intro b l t hb hok
    unfold readFactors at hok
    cases hok
    exact ⟨rfl, by simp, hb⟩
  | succ n ih =>
    intro b l t hb hok
    unfold readFactors at hok
    cases hi : readU32 b with
    | error e => rw [hi] at hok; cases hok
    | ok p =>
      rw [hi] at hok
      obtain ⟨index, b1⟩ := p
      obtain ⟨hidx, hb1, _⟩ := readU32_ok_bounds hb hi
      dsimp only at hok
      cases hf : FieldElement.read FS b1 with
      | error e => rw [hf] at hok; cases hok
      | ok q =>
        rw [hf] at hok
        obtain ⟨factor, b2⟩ := q
        unfold FieldElement.read at hf
        obtain ⟨hfeq, hb2eq, hfle⟩ := readBytes_ok hf
        have hflen : factor.length = FS := by
          rw [hfeq]; simp [List.length_take]; omega
        have hb2 : AllBytes b2 := by
          intro x hx; rw [hb2eq] at hx
          exact hb1 x (List.drop_subset FS b1 hx)
        dsimp only at hok
        cases hrest : readFactors FS n b2 with
        | error e => rw [hrest] at hok; cases hok
        | ok r =>
          rw [hrest] at hok
          obtain ⟨factors, b3⟩ := r
          dsimp only at hok
          cases hok
          obtain ⟨hl, hfs, hb3⟩ := ih hb2 hrest
          refine ⟨by simp [hl], ?_, hb3⟩
          intro f hf
          rcases List.mem_cons.mp hf with hcase | hcase
          · rw [hcase]; exact ⟨hflen, hidx⟩
          · exact hfs f hcase

theorem readCombination_ok {FS : Nat} {b : Bytes} {l : List Factor} {t : Bytes}
    (hb : AllBytes b) (hok : readCombination FS b = .ok (l, t)) :
    CombWF FS l ∧ AllBytes t := by
  unfold readCombination at hok
  cases hn : readU32 b with
  | error e => rw [hn] at hok; cases hok
  | ok p =>
    rw [hn] at hok
    obtain ⟨n, b1⟩ := p
    obtain ⟨hnlt, hb1, _⟩ := readU32_ok_bounds hb hn
    dsimp only at hok
    obtain ⟨hl, hfs, ht⟩ := readFactors_ok hb1 hok
    exact ⟨⟨by rw [hl]; exact hnlt, hfs⟩, ht⟩

theorem constraintRead_ok_wf {FS : Nat} {b : Bytes} {c : Constraint} {t : Bytes}
    (hb : AllBytes b) (hok : Constraint.read FS b = .ok (c, t)) :
    Constraint.WF FS c ∧ AllBytes t := by
  unfold Constraint.read at hok
  cases h0 : readCombination FS b with
  | error e => rw [h0] at hok; cases hok
  | ok p =>
    rw [h0] at hok
    obtain ⟨a, b1⟩ := p
    obtain ⟨hwa, hb1⟩ := readCombination_ok hb h0
    dsimp only at hok
    cases h1 : readCombination FS b1 with
    | error e => rw [h1] at hok; cases hok
    | ok q =>
      rw [h1] at hok
      obtain ⟨bb, b2⟩ := q
      obtain ⟨hwb, hb2⟩ := readCombination_ok hb1 h1
      dsimp only at hok
      cases h2 : readCombination FS b2 with
      | error e => rw [h2] at hok; cases hok
      | ok r =>
        rw [h2] at hok
        obtain ⟨cc, b3⟩ := r
        obtain ⟨hwc, hb3⟩ := readCombination_ok hb2 h2
        dsimp only at hok
        cases hok
        exact ⟨⟨hwa, hwb, hwc⟩, hb3⟩

theorem readConstraintList_ok {FS : Nat} :
    ∀ {n : Nat} {b : Bytes} {cs : List Constraint} {t : Bytes},
    AllBytes b → readConstraintList FS n b = .ok (cs, t) →
    cs.length = n ∧ (∀ c ∈ cs, Constraint.WF FS c) ∧ AllBytes t := by
  intro n
  induction n with
  | zero =>
    intro b cs t hb hok
    unfold readConstraintList at hok
    cases hok
    exact ⟨rfl, by simp, hb⟩
  | succ n ih =>
    intro b cs t hb hok
    unfold readConstraintList at hok
    cases hc : Constraint.read FS b with
    | error e => rw [hc] at hok; cases hok
    | ok p =>
      rw [hc] at hok
      obtain ⟨c, b1⟩ := p
      obtain ⟨hwc, hb1⟩ := constraintRead_ok_wf hb hc
      dsimp only at hok
      cases hrest : readConstraintList FS n b1 with
      | error e => rw [hrest] at hok; cases hok
      | ok q =>
        rw [hrest] at hok
        obtain ⟨cs', b2⟩ := q
        dsimp only at hok
        cases hok
        obtain ⟨hl, hwcs, hb2⟩ := ih hb1 hrest
        refine ⟨by simp [hl], ?_, hb2⟩
        intro d hd
        rcases List.mem_cons.mp hd with hcase | hcase
        · rw [hcase]; exact hwc
        · exact hwcs d hcase

theorem constraintsRead_ok {FS n : Nat} {b : Bytes} {cs : List Constraint} {t : Bytes}
    (hb : AllBytes b) (hok : Constraints.read FS n b = .ok (cs, t)) :
    cs.length = n ∧ (∀ c ∈ cs, Constraint.WF FS c) ∧ AllBytes t := by
  unfold Constraints.read at hok
  cases hsec : SectionHeader.read b with
  | error e => rw [hsec] at hok; cases hok
  | ok p =>
    rw [hsec] at hok
    obtain ⟨sh, b1⟩ := p
    obtain ⟨_, hb1, _⟩ := SectionHeader.read_ok_bounds b sh b1 hb hsec
    dsimp only at hok
    exact readConstraintList_ok hb1 hok

theorem readLabels_ok : ∀ {n : Nat} {b : Bytes} {m : List Nat} {t : Bytes},
    AllBytes b → readLabels n b = .ok (m, t) →
    m.length = n ∧ (∀ l ∈ m, l < 18446744073709551616) ∧ AllBytes t := by
  intro n
  induction n with
  | zero =>
    intro b m t hb hok
    unfold readLabels at hok
    cases hok
    exact ⟨rfl, by simp, hb⟩
  | succ n ih =>
    intro b m t hb hok
    unfold readLabels at hok
    cases hl : readU64 b with
    | error e => rw [hl] at hok; cases hok
    | ok p =>
      rw [hl] at hok
      obtain ⟨l, b1⟩ := p
      obtain ⟨hllt, hb1, _⟩ := readU64_ok_bounds hb hl
      dsimp only at hok
      cases hrest : readLabels n b1 with
      | error e => rw [hrest] at hok; cases hok
      | ok q =>
        rw [hrest] at hok
        obtain ⟨ls, b2⟩ := q
        dsimp only at hok
        cases hok
        obtain ⟨hlen, hls, hb2⟩ := ih hb1 hrest
        refine ⟨by simp [hlen], ?_, hb2⟩
        intro x hx
        rcases List.mem_cons.mp hx with hcase | hcase
        · rw [hcase]; exact hllt
        · exact hls x hcase

theorem wireMapRead_ok {b : Bytes} {m : List Nat} {t : Bytes}
    (hb : AllBytes b) (hok : WireMap.read b = .ok (m, t)) :
    (∀ l ∈ m, l < 18446744073709551616) ∧
    m.length * 8 < 18446744073709551616 ∧ AllBytes t := by
  unfold WireMap.read at hok
  cases hsec : SectionHeader.read b with
  | error e => rw [hsec] at hok; cases hok
  | ok p =>
    rw [hsec] at hok
    obtain ⟨sh, b1⟩ := p
    obtain ⟨hsz, hb1, _⟩ := SectionHeader.read_ok_bounds b sh b1 hb hsec
    dsimp only at hok
    obtain ⟨hlen, hls, ht⟩ := readLabels_ok hb1 hok
    refine ⟨hls, ?_, ht⟩
    rw [hlen]
    have := Nat.div_mul_le_self sh.size 8
    omega

/-- Every document produced by `R1csFile.read` from genuine byte input is
well-formed. -/
theorem r1csRead_ok_wf {FS : Nat} {b : Bytes} {f : R1csFile} {t : Bytes}
    (hb : AllBytes b) (hok : R1csFile.read FS b = .ok (f, t)) :
    R1csFile.WF FS f := by
  unfold R1csFile.read at hok
  cases hmg : readBytes 4 b with
  | error e => rw [hmg] at hok; cases hok
  | ok p =>
    rw [hmg] at hok
    obtain ⟨magic, b1⟩ := p
    obtain ⟨hmag, hb1⟩ := readBytes_ok_allBytes hb hmg
    dsimp only at hok
    split at hok
    · cases hok
    · cases hv : readU32 b1 with
      | error e => rw [hv] at hok; cases hok
      | ok q =>
        rw [hv] at hok
        obtain ⟨version, b2⟩ := q
        obtain ⟨_, hb2, _⟩ := readU32_ok_bounds hb1 hv
        dsimp only at hok
        split at hok
        · cases hok
        · cases hns : readU32 b2 with
          | error e => rw [hns] at hok; cases hok
          | ok r =>
            rw [hns] at hok
            obtain ⟨ns, b3⟩ := r
            obtain ⟨_, hb3, _⟩ := readU32_ok_bounds hb2 hns
            dsimp only at hok
            cases hhd : Header.read FS b3 with
            | error e => rw [hhd] at hok; cases hok
            | ok s =>
              rw [hhd] at hok
              obtain ⟨header, b4⟩ := s
              obtain ⟨hwh, hb4⟩ := headerRead_ok_wf hb3 hhd
              dsimp only at hok
              cases hcs : Constraints.read FS header.n_constraints b4 with
              | error e => rw [hcs] at hok; cases hok
              | ok u =>
                rw [hcs] at hok
                obtain ⟨constraints, b5⟩ := u
                obtain ⟨hclen, hwcs, hb5⟩ := constraintsRead_ok hb4 hcs
                dsimp only at hok
                cases hmp : WireMap.read b5 with
                | error e => rw [hmp] at hok; cases hok
                | ok w =>
                  rw [hmp] at hok
                  obtain ⟨map, b6⟩ := w
                  obtain ⟨hml, hmlen, _⟩ := wireMapRead_ok hb5 hmp
                  dsimp only at hok
                  cases hok
                  exact ⟨hwh, hclen, hwcs, hml, hmlen⟩

end R1cs

namespace R1cs

theorem readConstraintList_length {FS : Nat} :
    ∀ {n : Nat} {b : Bytes} {cs : List Constraint} {t : Bytes},
    readConstraintList FS n b = .ok (cs, t) → cs.length = n := by
  intro n
  induction n with
  | zero =>
    intro b cs t hok
    unfold readConstraintList at hok
    cases hok
    rfl
  | succ n ih =>
    intro b cs t hok
    unfold readConstraintList at hok
    cases hc : Constraint.read FS b with
    | error e => rw [hc] at hok; cases hok
    | ok p =>
      rw [hc] at hok
      obtain ⟨c, b1⟩ := p
      dsimp only at hok
      cases hrest : readConstraintList FS n b1 with
      | error e => rw [hrest] at hok; cases hok
      | ok q =>
        rw [hrest] at hok
        obtain ⟨cs', b2⟩ := q
        dsimp only at hok
        cases hok
        simp [ih hrest]

theorem readLabels_length : ∀ {n : Nat} {b : Bytes} {m : List Nat} {t : Bytes},
    readLabels n b = .ok (m, t) → m.length = n := by
  intro n
  induction n with
  | zero =>
    intro b m t hok
    unfold readLabels at hok
    cases hok
    rfl
  | succ n ih =>
    intro b m t hok
    unfold readLabels at hok
    cases hl : readU64 b with
    | error e => rw [hl] at hok; cases hok
    | ok p =>
      rw [hl] at hok
      obtain ⟨l, b1⟩ := p
      dsimp only at hok
      cases hrest : readLabels n b1 with
      | error e => rw [hrest] at hok; cases hok
      | ok q =>
        rw [hrest] at hok
        obtain ⟨ls, b2⟩ := q
        dsimp only at hok
        cases hok
        simp [ih hrest]

/-- Reading a section header that starts with a recognized tag returns
that tag and the declared size unchanged. -/
theorem SectionHeader.read_recognized (t s : Nat) (rest : Bytes)
    (ht : t < 4294967296) (hs : s < 18446744073709551616)
    (hrec : SectionType.ofNum t ≠ .unknown) :
    SectionHeader.read (encodeU32 t ++ (encodeU64 s ++ rest)) =
      .ok (⟨SectionType.ofNum t, s⟩, rest) := by
  rw [SectionHeader.read_eq]
  rw [sectionTypeRead_encode, Nat.mod_eq_of_lt ht]
  dsimp only
  rw [readU64_encode, Nat.mod_eq_of_lt hs]
  dsimp only
  rw [if_neg hrec]

/-- Skipping an unknown section: when the declared size is exactly the
length of the junk payload, reading resumes right after it. -/
theorem SectionHeader.read_skip_unknown (t s : Nat) (junk rest : Bytes)
    (ht : t < 4294967296) (hs : s < 18446744073709551616)
    (hunk : SectionType.ofNum t = .unknown) (hlen : junk.length = s) :
    SectionHeader.read (encodeU32 t ++ (encodeU64 s ++ (junk ++ rest))) =
      SectionHeader.read rest := by
  rw [SectionHeader.read_eq]
  rw [sectionTypeRead_encode, Nat.mod_eq_of_lt ht]
  dsimp only
  rw [readU64_encode, Nat.mod_eq_of_lt hs]
  dsimp only
  rw [if_pos hunk, List.drop_left' hlen]

/-- An unknown section whose declared size exceeds the rest of the input:
the skip consumes everything that remains and the next section-header
read fails with the truncation error. -/
theorem SectionHeader.read_truncated_unknown (t s : Nat) (junk : Bytes)
    (ht : t < 4294967296) (hs : s < 18446744073709551616)
    (hunk : SectionType.ofNum t = .unknown) (hlen : junk.length < s) :
    SectionHeader.read (encodeU32 t ++ (encodeU64 s ++ junk)) = .error .eof := by
  rw [SectionHeader.read_eq]
  rw [sectionTypeRead_encode, Nat.mod_eq_of_lt ht]
  dsimp only
  rw [readU64_encode, Nat.mod_eq_of_lt hs]
  dsimp only
  rw [if_pos hunk]
  rw [List.drop_eq_nil_of_le (by omega)]
  rfl

/-- `Header.read` only looks at the input through `SectionHeader.read`'s
result, so inputs on which the section scanner agrees parse identically. -/
theorem Header.read_congr (FS : Nat) {b1 b2 : Bytes}
    (h : SectionHeader.read b1 = SectionHeader.read b2) :
    Header.read FS b1 = Header.read FS b2 := by
  unfold Header.read
  rw [h]

end R1cs

/-- A small synthetic R1CS byte file over a 1-byte field with prime 7,
no constraints, an empty wire map, and three knobs: the section count
written in the container preamble, the tag of the first section (whose
body is the header), and the header's claimed `n_wires`. -/
def sampleR1cs (ns htag nw : Nat) : Bytes :=
  R1cs.MAGIC ++ encodeU32 1 ++ encodeU32 ns ++
  (encodeU32 htag ++ encodeU64 33 ++ encodeU32 1 ++ [7] ++ encodeU32 nw ++
   encodeU32 0 ++ encodeU32 0 ++ encodeU32 0 ++ encodeU64 0 ++ encodeU32 0) ++
  (encodeU32 2 ++ encodeU64 0) ++
  (encodeU32 3 ++ encodeU64 0)

/-- The document those sample bytes parse to. -/
def sampleR1csDoc (nw : Nat) : R1cs.R1csFile :=
  ⟨⟨[7], nw, 0, 0, 0, 0, 0⟩, [], []⟩

namespace R1cs

/-- `Header.read` propagates a failing section-header read unchanged. -/
theorem Header.read_error {FS : Nat} {b : Bytes} {e : Err}
    (h : SectionHeader.read b = .error e) : Header.read FS b = .error e := by
  unfold Header.read
  rw [h]

/-- A successful `R1csFile.read` always returns exactly as many
constraints as the header's `n_constraints` (no byte-length bound is
involved), for arbitrary input. -/
theorem R1csFile.read_constraints_count {FS : Nat} {b : Bytes}
    {f : R1csFile} {t : Bytes} (hok : R1csFile.read FS b = .ok (f, t)) :
    f.constraints.length = f.header.n_constraints := by
  unfold R1csFile.read at hok
  cases hmg : readBytes 4 b with
  | error e => rw [hmg] at hok; cases hok
  | ok p =>
    rw [hmg] at hok
    obtain ⟨magic, b1⟩ := p
    dsimp only at hok
    split at hok
    · cases hok
    · cases hv : readU32 b1 with
      | error e => rw [hv] at hok; cases hok
      | ok q =>
        rw [hv] at hok
        obtain ⟨version, b2⟩ := q
        dsimp only at hok
        split at hok
        · cases hok
        · cases hns : readU32 b2 with
          | error e => rw [hns] at hok; cases hok
          | ok r =>
            rw [hns] at hok
            obtain ⟨ns, b3⟩ := r
            dsimp only at hok
            cases hhd : Header.read FS b3 with
            | error e => rw [hhd] at hok; cases hok
            | ok s =>
              rw [hhd] at hok
              obtain ⟨header, b4⟩ := s
              dsimp only at hok
              cases hcs : Constraints.read FS header.n_constraints b4 with
              | error e => rw [hcs] at hok; cases hok
              | ok u =>
                rw [hcs] at hok
                obtain ⟨constraints, b5⟩ := u
                dsimp only at hok
                cases hmp : WireMap.read b5 with
                | error e => rw [hmp] at hok; cases hok
                | ok w =>
                  rw [hmp] at hok
                  obtain ⟨map, b6⟩ := w
                  dsimp only at hok
                  cases hok
                  unfold Constraints.read at hcs
                  cases hsec : SectionHeader.read b4 with
                  | error e => rw [hsec] at hcs; cases hcs
                  | ok sp =>
                    rw [hsec] at hcs
                    obtain ⟨sh, b4'⟩ := sp
                    dsimp only at hcs
                    exact readConstraintList_length hcs

end R1cs

/-! ## Claim theorems -/

/-- C1, counterexample: the byte-exact round-trip fails on an accepted
input. `sampleR1cs 5 1 0` declares a section count of 5, which `read`
ignores; `write` re-emits a hard-coded count of 3, so the bytes differ. -/
theorem c1_counterexample :
    R1cs.R1csFile.read 1 (sampleR1cs 5 1 0) = .ok (sampleR1csDoc 0, []) ∧
    R1cs.R1csFile.write 1 (sampleR1csDoc 0) ≠ sampleR1cs 5 1 0 :=
  ⟨by decide, by decide⟩

/-- C1 (amended): the round-trip holds structurally, not byte-exactly:
for every byte sequence `B` accepted by `R1csFile::read` producing
document `f`, re-reading `R1csFile::write f` yields `f` again exactly
(consuming the whole output). Byte-for-byte equality of `write f` with
`B` does not hold in general, because `read` ignores the declared section
count, the header and constraint sections' declared sizes, unknown
sections and trailing bytes, all of which `write` canonicalizes. -/
theorem c1_read_write_structural_roundtrip (FS : Nat) (B : Bytes)
    (f : R1cs.R1csFile) (rest : Bytes) (hB : AllBytes B)
    (hok : R1cs.R1csFile.read FS B = .ok (f, rest)) :
    R1cs.R1csFile.read FS (R1cs.R1csFile.write FS f) = .ok (f, []) :=
  R1cs.r1csRead_write FS f (R1cs.r1csRead_ok_wf hB hok)

/-- Witness for C1: the canonical sample file round-trips through
`read` then `write` then `read`. -/
theorem c1_witness :
    R1cs.R1csFile.read 1 (R1cs.R1csFile.write 1 (sampleR1csDoc 0)) =
      .ok (sampleR1csDoc 0, []) :=
  c1_read_write_structural_roundtrip 1 (sampleR1cs 3 1 0) (sampleR1csDoc 0) []
    (by decide) (by decide)

/-- C5: `R1csFile::read` decodes exactly `n_constraints` constraints:
every successfully parsed document has as many constraints as its
header's `n_constraints`; and the Constraints section's declared byte
length does not influence the read at all — two inputs differing only in
that declared length parse identically. -/
theorem c5_constraints_count_and_size_ignored :
    (∀ (FS : Nat) (B : Bytes) (f : R1cs.R1csFile) (rest : Bytes),
      R1cs.R1csFile.read FS B = .ok (f, rest) →
      f.constraints.length = f.header.n_constraints) ∧
    (∀ (FS n s s' : Nat) (rest : Bytes),
      s < 18446744073709551616 → s' < 18446744073709551616 →
      R1cs.Constraints.read FS n (encodeU32 2 ++ (encodeU64 s ++ rest)) =
      R1cs.Constraints.read FS n (encodeU32 2 ++ (encodeU64 s' ++ rest))) := by
  constructor
  · intro FS B f rest hok
    exact R1cs.R1csFile.read_constraints_count hok
  · intro FS n s s' rest hs hs'
    unfold R1cs.Constraints.read
    rw [R1cs.SectionHeader.read_recognized 2 s rest (by decide) hs (by decide)]
    rw [R1cs.SectionHeader.read_recognized 2 s' rest (by decide) hs' (by decide)]

/-- Witness for C5: the sample parse has 0 constraints matching its
header, and two Constraints sections differing only in declared size
(0 vs 7) parse identically. -/
theorem c5_witness :
    (sampleR1csDoc 0).constraints.length = (sampleR1csDoc 0).header.n_constraints ∧
    R1cs.Constraints.read 1 0 (encodeU32 2 ++ (encodeU64 0 ++ [])) =
      R1cs.Constraints.read 1 0 (encodeU32 2 ++ (encodeU64 7 ++ [])) :=
  ⟨c5_constraints_count_and_size_ignored.1 1 (sampleR1cs 3 1 0) (sampleR1csDoc 0) []
      (by decide),
   c5_constraints_count_and_size_ignored.2 1 0 0 7 [] (by decide) (by decide)⟩

/-- C3, counterexample: a document whose header declares `n_wires = 1`
but whose WireMap section declares 0 bytes parses successfully with an
empty map — the map length does **not** equal `n_wires`. -/
theorem c3_counterexample :
    R1cs.R1csFile.read 1 (sampleR1cs 3 1 1) = .ok (sampleR1csDoc 1, []) ∧
    (sampleR1csDoc 1).map.length ≠ (sampleR1csDoc 1).header.n_wires :=
  ⟨by decide, by decide⟩

/-- C3 (amended): the length of a parsed WireMap is the WireMap section's
declared byte size divided by 8 (integer division), with `n_wires` taking
no part in the read. -/
theorem c3_map_length_from_section_size (s : Nat) (rest : Bytes)
    (m : List Nat) (t : Bytes) (hs : s < 18446744073709551616)
    (hok : R1cs.WireMap.read (encodeU32 3 ++ (encodeU64 s ++ rest)) = .ok (m, t)) :
    m.length = s / 8 := by
  unfold R1cs.WireMap.read at hok
  rw [R1cs.SectionHeader.read_recognized 3 s rest (by decide) hs (by decide)] at hok
  dsimp only at hok
  exact R1cs.readLabels_length hok

/-- Witness for C3's amended statement: a WireMap section declaring 8
bytes yields exactly one label. -/
theorem c3_witness :
    R1cs.WireMap.read (encodeU32 3 ++ (encodeU64 8 ++ encodeU64 5)) = .ok ([5], []) ∧
    ([5] : List Nat).length = 8 / 8 :=
  ⟨by decide,
   c3_map_length_from_section_size 8 (encodeU64 5) [5] [] (by decide) (by decide)⟩

/-- C4, counterexample: a file whose header-position section is tagged
`Constraint` (2) — a recognized non-Header tag — is accepted, and its
content is read as the Header (prime 7, all counters as declared), because
`Header::read` discards the section type (`let _section = ...`). -/
theorem c4_counterexample :
    R1cs.R1csFile.read 1 (sampleR1cs 3 2 0) = .ok (sampleR1csDoc 0, []) := by
  decide

/-- C4 (amended): at the header position, unknown tags are skipped, but
the recognized tag is **not** validated: a section tagged Constraint (2)
or Wire2LabelIdMap (3) is accepted exactly as if it were tagged
Header (1), its content read as the Header body. -/
theorem c4_header_tag_not_validated :
    (∀ (FS s : Nat) (body : Bytes), s < 18446744073709551616 →
      R1cs.Header.read FS (encodeU32 2 ++ (encodeU64 s ++ body)) =
        R1cs.Header.read FS (encodeU32 1 ++ (encodeU64 s ++ body)) ∧
      R1cs.Header.read FS (encodeU32 3 ++ (encodeU64 s ++ body)) =
        R1cs.Header.read FS (encodeU32 1 ++ (encodeU64 s ++ body))) ∧
    (∀ (FS t s : Nat) (junk rest : Bytes), t < 4294967296 →
      R1cs.SectionType.ofNum t = .unknown → s < 18446744073709551616 →
      junk.length = s →
      R1cs.Header.read FS (encodeU32 t ++ (encodeU64 s ++ (junk ++ rest))) =
        R1cs.Header.read FS rest) := by
  constructor
  · intro FS s body hs
    constructor
    · unfold R1cs.Header.read
      rw [R1cs.SectionHeader.read_recognized 2 s body (by decide) hs (by decide)]
      rw [R1cs.SectionHeader.read_recognized 1 s body (by decide) hs (by decide)]
    · unfold R1cs.Header.read
      rw [R1cs.SectionHeader.read_recognized 3 s body (by decide) hs (by decide)]
      rw [R1cs.SectionHeader.read_recognized 1 s body (by decide) hs (by decide)]
  · intro FS t s junk rest ht hunk hs hlen
    exact R1cs.Header.read_congr FS
      (R1cs.SectionHeader.read_skip_unknown t s junk rest ht hs hunk hlen)

/-- Witness for C4's amended statement at concrete inputs: tag 2 and tag
3 header sections parse like tag 1, and an unknown tag-77 section of two
junk bytes is skipped. -/
theorem c4_witness :
    R1cs.Header.read 1 (encodeU32 2 ++ (encodeU64 33 ++ [1, 0, 0, 0, 7])) =
      R1cs.Header.read 1 (encodeU32 1 ++ (encodeU64 33 ++ [1, 0, 0, 0, 7])) ∧
    R1cs.Header.read 1 (encodeU32 77 ++ (encodeU64 2 ++ ([9, 9] ++ []))) =
      R1cs.Header.read 1 [] :=
  ⟨(c4_header_tag_not_validated.1 1 33 [1, 0, 0, 0, 7] (by decide)).1,
   c4_header_tag_not_validated.2 1 77 2 [9, 9] [] (by decide) (by decide)
     (by decide) (by decide)⟩

/-- C8: the unknown-section skip always terminates with well-defined
behavior on finite input (the embedding is a total function): when at
least the declared size remains, the skip consumes exactly the declared
size and reading resumes after it; when an unknown trailing section
declares more bytes than remain, the skip consumes the rest and the
overall `R1csFile::read` fails with the truncation (`eof`) error. -/
theorem c8_skip_unknown_bounded :
    (∀ (t s : Nat) (junk rest : Bytes), t < 4294967296 →
      R1cs.SectionType.ofNum t = .unknown → s < 18446744073709551616 →
      junk.length = s →
      R1cs.SectionHeader.read (encodeU32 t ++ (encodeU64 s ++ (junk ++ rest))) =
        R1cs.SectionHeader.read rest) ∧
    (∀ (t s : Nat) (junk : Bytes), t < 4294967296 →
      R1cs.SectionType.ofNum t = .unknown → s < 18446744073709551616 →
      junk.length < s →
      R1cs.SectionHeader.read (encodeU32 t ++ (encodeU64 s ++ junk)) =
        .error .eof) ∧
    (∀ (FS ns t s : Nat) (junk : Bytes), t < 4294967296 →
      R1cs.SectionType.ofNum t = .unknown → s < 18446744073709551616 →
      junk.length < s →
      R1cs.R1csFile.read FS
        (R1cs.MAGIC ++ (encodeU32 1 ++ (encodeU32 ns ++
          (encodeU32 t ++ (encodeU64 s ++ junk))))) = .error .eof) := by
  refine ⟨?_, ?_, ?_⟩
  · intro t s junk rest ht hunk hs hlen
    exact R1cs.SectionHeader.read_skip_unknown t s junk rest ht hs hunk hlen
  · intro t s junk ht hunk hs hlen
    exact R1cs.SectionHeader.read_truncated_unknown t s junk ht hs hunk hlen
  · intro FS ns t s junk ht hunk hs hlen
    unfold R1cs.R1csFile.read
    rw [readBytes_exact R1cs.MAGIC _ (by rfl)]
    dsimp only
    rw [if_neg (by simp)]
    rw [readU32_encode]
    dsimp only
    rw [if_neg (by simp [R1cs.VERSION])]
    rw [readU32_encode]
    dsimp only
    rw [R1cs.Header.read_error
      (R1cs.SectionHeader.read_truncated_unknown t s junk ht hs hunk hlen)]

/-- Witness for C8 at concrete inputs: a tag-77 section with two junk
bytes skips to the rest; the same tag declaring 100 bytes over a 3-byte
remainder makes both the section read and a whole-file read fail with
`eof`. -/
theorem c8_witness :
    R1cs.SectionHeader.read (encodeU32 77 ++ (encodeU64 2 ++ ([9, 9] ++ [1, 2]))) =
      R1cs.SectionHeader.read [1, 2] ∧
    R1cs.SectionHeader.read (encodeU32 77 ++ (encodeU64 100 ++ [1, 2, 3])) =
      .error .eof ∧
    R1cs.R1csFile.read 1
      (R1cs.MAGIC ++ (encodeU32 1 ++ (encodeU32 3 ++
        (encodeU32 77 ++ (encodeU64 100 ++ [1, 2, 3]))))) = .error .eof :=
  ⟨c8_skip_unknown_bounded.1 77 2 [9, 9] [1, 2] (by decide) (by decide)
      (by decide) (by decide),
   c8_skip_unknown_bounded.2.1 77 100 [1, 2, 3] (by decide) (by decide)
      (by decide) (by decide),
   c8_skip_unknown_bounded.2.2 1 3 77 100 [1, 2, 3] (by decide) (by decide)
      (by decide) (by decide)⟩

namespace Wtns

theorem wtnsSectionTypeRead_encode (n : Nat) (rest : Bytes) :
    SectionType.read (encodeU32 n ++ rest) =
      .ok (SectionType.ofNum (n % 4294967296), rest) := by
  unfold SectionType.read
  rw [readU32_encode]

theorem SectionType.ofNum_ne_headerTy {t : Nat} (ht : t ≠ 1) :
    SectionType.ofNum t ≠ .headerTy := by
  unfold SectionType.ofNum
  rw [if_neg ht]
  by_cases h2 : t = 2
  · rw [if_pos h2]; intro hc; cases hc
  · rw [if_neg h2]; intro hc; cases hc

theorem SectionType.ofNum_ne_witnessTy {t : Nat} (ht : t ≠ 2) :
    SectionType.ofNum t ≠ .witnessTy := by
  unfold SectionType.ofNum
  by_cases h1 : t = 1
  · rw [if_pos h1]; intro hc; cases hc
  · rw [if_neg h1, if_neg ht]; intro hc; cases hc

theorem readElements_ok {FS : Nat} :
    ∀ {n : Nat} {b : Bytes} {w : List Bytes} {t : Bytes},
    readElements FS n b = .ok (w, t) →
    w.length = n ∧ ∀ e ∈ w, e.length = FS := by
  intro n
  induction n with
  | zero =>
    intro b w t hok
    unfold readElements at hok
    cases hok
    exact ⟨rfl, by simp⟩
  | succ n ih =>
    intro b w t hok
    unfold readElements at hok
    cases he : FieldElement.read FS b with
    | error e => rw [he] at hok; cases hok
    | ok p =>
      rw [he] at hok
      obtain ⟨e1, b1⟩ := p
      unfold FieldElement.read at he
      obtain ⟨heq, _, hle⟩ := readBytes_ok he
      have helen : e1.length = FS := by
        rw [heq]; simp [List.length_take]; omega
      dsimp only at hok
      cases hrest : readElements FS n b1 with
      | error e => rw [hrest] at hok; cases hok
      | ok q =>
        rw [hrest] at hok
        obtain ⟨es, b2⟩ := q
        dsimp only at hok
        cases hok
        obtain ⟨hlen, hes⟩ := ih hrest
        refine ⟨by simp [hlen], ?_⟩
        intro e he'
        rcases List.mem_cons.mp he' with hcase | hcase
        · rw [hcase]; exact helen
        · exact hes e hcase

end Wtns

/-- A small synthetic WTNS byte file over a 1-byte field with prime 7 and
an empty witness; `v` is the version word and `tag` the tag of the
header-position section. -/
def sampleWtns (v tag : Nat) : Bytes :=
  Wtns.MAGIC ++ encodeU32 v ++ encodeU32 2 ++
  (encodeU32 tag ++ encodeU64 9 ++ encodeU32 1 ++ [7] ++ encodeU32 0) ++
  (encodeU32 2 ++ encodeU64 0)

/-- C2, counterexample: a WTNS input whose header-position section
carries the unrecognized tag 99 makes `WtnsFile::read` fail with the
"Invalid section type: expected header" error — the section is *not*
silently skipped. -/
theorem c2_counterexample :
    Wtns.WtnsFile.read 1 (sampleWtns 1 99) = .error .expectedHeaderSection := by
  decide

/-- C2 (amended): in the WTNS reader an unrecognized tag maps to
`Unknown` but is then rejected, not skipped: any tag other than
Header (1) at the header position, and any tag other than Witness (2) at
the witness position, makes the parse fail with an "Invalid section
type" error. Only the R1CS reader skips unknown sections. -/
theorem c2_wtns_unknown_tag_errors :
    (∀ (FS t : Nat) (rest : Bytes), t < 4294967296 → t ≠ 1 →
      Wtns.Header.read FS (encodeU32 t ++ rest) = .error .expectedHeaderSection) ∧
    (∀ (FS t : Nat) (h : Wtns.Header) (rest : Bytes), t < 4294967296 → t ≠ 2 →
      Wtns.Witness.read FS h (encodeU32 t ++ rest) = .error .expectedWitnessSection) := by
  constructor
  · intro FS t rest ht ht1
    unfold Wtns.Header.read
    rw [Wtns.wtnsSectionTypeRead_encode, Nat.mod_eq_of_lt ht]
    dsimp only
    rw [if_pos (Wtns.SectionType.ofNum_ne_headerTy ht1)]
  · intro FS t h rest ht ht2
    unfold Wtns.Witness.read
    rw [Wtns.wtnsSectionTypeRead_encode, Nat.mod_eq_of_lt ht]
    dsimp only
    rw [if_pos (Wtns.SectionType.ofNum_ne_witnessTy ht2)]

/-- Witness for C2's amended statement: tag 99 errors at the header
position, and tag 3 errors at the witness position. -/
theorem c2_witness :
    Wtns.Header.read 1 (encodeU32 99 ++ []) = .error .expectedHeaderSection ∧
    Wtns.Witness.read 1 ⟨1, [7], 0⟩ (encodeU32 3 ++ []) =
      .error .expectedWitnessSection :=
  ⟨c2_wtns_unknown_tag_errors.1 1 99 [] (by decide) (by decide),
   c2_wtns_unknown_tag_errors.2 1 3 ⟨1, [7], 0⟩ [] (by decide) (by decide)⟩

/-- C6: `R1csFile::read` rejects every version word other than exactly 1
with the "Unsupported version" error, while `WtnsFile::read` accepts
every version word `≤ 2` (including 0) and rejects every version `> 2`. -/
theorem c6_version_checks :
    (∀ (FS v : Nat) (rest : Bytes), v < 4294967296 → v ≠ 1 →
      R1cs.R1csFile.read FS (R1cs.MAGIC ++ (encodeU32 v ++ rest)) =
        .error .unsupportedVersion) ∧
    (∀ (FS v : Nat) (rest : Bytes), v < 4294967296 → v > 2 →
      Wtns.WtnsFile.read FS (Wtns.MAGIC ++ (encodeU32 v ++ rest)) =
        .error .unsupportedVersion) ∧
    (∀ v : Nat, v ≤ 2 →
      Wtns.WtnsFile.read 1 (Wtns.MAGIC ++ encodeU32 v ++ encodeU32 2 ++
          (encodeU32 1 ++ encodeU64 9 ++ encodeU32 1 ++ [7] ++ encodeU32 0) ++
          (encodeU32 2 ++ encodeU64 0)) =
        .ok (⟨v, ⟨1, [7], 0⟩, []⟩, [])) := by
  refine ⟨?_, ?_, ?_⟩
  · intro FS v rest hv hv1
    unfold R1cs.R1csFile.read
    rw [readBytes_exact R1cs.MAGIC _ (by rfl)]
    dsimp only
    rw [if_neg (by simp)]
    rw [readU32_encode, Nat.mod_eq_of_lt hv]
    dsimp only
    rw [if_pos (by simpa [R1cs.VERSION] using hv1)]
  · intro FS v rest hv hv2
    unfold Wtns.WtnsFile.read
    rw [readBytes_exact Wtns.MAGIC _ (by rfl)]
    dsimp only
    rw [if_neg (by simp)]
    rw [readU32_encode, Nat.mod_eq_of_lt hv]
    dsimp only
    rw [if_pos hv2]
  · intro v hv
    have : v = 0 ∨ v = 1 ∨ v = 2 := by omega
    rcases this with h | h | h <;> subst h <;> decide

/-- Witness for C6: R1CS version 2 is rejected, WTNS version 3 is
rejected, WTNS version 0 parses. -/
theorem c6_witness :
    R1cs.R1csFile.read 1 (R1cs.MAGIC ++ (encodeU32 2 ++ [])) =
      .error .unsupportedVersion ∧
    Wtns.WtnsFile.read 1 (Wtns.MAGIC ++ (encodeU32 3 ++ [])) =
      .error .unsupportedVersion ∧
    Wtns.WtnsFile.read 1 (Wtns.MAGIC ++ encodeU32 0 ++ encodeU32 2 ++
        (encodeU32 1 ++ encodeU64 9 ++ encodeU32 1 ++ [7] ++ encodeU32 0) ++
        (encodeU32 2 ++ encodeU64 0)) =
      .ok (⟨0, ⟨1, [7], 0⟩, []⟩, []) :=
  ⟨c6_version_checks.1 1 2 [] (by decide) (by decide),
   c6_version_checks.2.1 1 3 [] (by decide) (by decide),
   c6_version_checks.2.2 0 (by decide)⟩

/-- C7: WTNS section-size validation. A Header section whose declared
size differs from exactly `4 + FS + 4` fails with the header-size error;
a Witness section whose declared size differs from exactly
`witness_len * FS` fails with the witness-size error; and every
successful Witness read decodes exactly `witness_len` field elements of
exactly `FS` bytes each. -/
theorem c7_wtns_section_size_checks :
    (∀ (FS s : Nat) (rest : Bytes), s < 18446744073709551616 →
      s ≠ 4 + FS + 4 →
      Wtns.Header.read FS (encodeU32 1 ++ (encodeU64 s ++ rest)) =
        .error .invalidHeaderSectionSize) ∧
    (∀ (FS s : Nat) (h : Wtns.Header) (rest : Bytes),
      s < 18446744073709551616 → s ≠ h.witness_len * FS →
      Wtns.Witness.read FS h (encodeU32 2 ++ (encodeU64 s ++ rest)) =
        .error .invalidWitnessSectionSize) ∧
    (∀ (FS : Nat) (h : Wtns.Header) (b : Bytes) (w : List Bytes) (t : Bytes),
      Wtns.Witness.read FS h b = .ok (w, t) →
      w.length = h.witness_len ∧ ∀ e ∈ w, e.length = FS) := by
  refine ⟨?_, ?_, ?_⟩
  · intro FS s rest hs hne
    unfold Wtns.Header.read
    rw [Wtns.wtnsSectionTypeRead_encode]
    dsimp only
    rw [if_neg (by simp [Wtns.SectionType.ofNum])]
    rw [readU64_encode, Nat.mod_eq_of_lt hs]
    dsimp only
    rw [if_pos hne]
  · intro FS s h rest hs hne
    unfold Wtns.Witness.read
    rw [Wtns.wtnsSectionTypeRead_encode]
    dsimp only
    rw [if_neg (by simp [Wtns.SectionType.ofNum])]
    rw [readU64_encode, Nat.mod_eq_of_lt hs]
    dsimp only
    rw [if_pos hne]
  · intro FS h b w t hok
    unfold Wtns.Witness.read at hok
    cases hst : Wtns.SectionType.read b with
    | error e => rw [hst] at hok; cases hok
    | ok p =>
      rw [hst] at hok
      obtain ⟨sec_type, b1⟩ := p
      dsimp only at hok
      split at hok
      · cases hok
      · cases hsz : readU64 b1 with
        | error e => rw [hsz] at hok; cases hok
        | ok q =>
          rw [hsz] at hok
          obtain ⟨sec_size, b2⟩ := q
          dsimp only at hok
          split at hok
          · cases hok
          · exact Wtns.readElements_ok hok

/-- Witness for C7: a Header section declaring 0 bytes (instead of 9)
errors; a Witness section declaring 5 bytes against `witness_len = 0`
errors; a well-sized Witness section with two 1-byte elements decodes
exactly both. -/
theorem c7_witness :
    Wtns.Header.read 1 (encodeU32 1 ++ (encodeU64 0 ++ [])) =
      .error .invalidHeaderSectionSize ∧
    Wtns.Witness.read 1 ⟨1, [7], 0⟩ (encodeU32 2 ++ (encodeU64 5 ++ [])) =
      .error .invalidWitnessSectionSize ∧
    (([[3], [4]] : List Bytes).length = (2 : Nat) ∧
      ∀ e ∈ ([[3], [4]] : List Bytes), e.length = 1) :=
  ⟨c7_wtns_section_size_checks.1 1 0 [] (by decide) (by decide),
   c7_wtns_section_size_checks.2.1 1 5 ⟨1, [7], 0⟩ [] (by decide) (by decide),
   c7_wtns_section_size_checks.2.2 1 ⟨1, [7], 2⟩
     (encodeU32 2 ++ encodeU64 2 ++ [3, 4]) [[3], [4]] [] (by decide)⟩

/-- The `witness_len` stored by `from_vec` is the vector length reduced
modulo `2^32` (the `usize → u32` cast). -/
theorem from_vec_witness_len (FS : Nat) (w : List Bytes) (p : Bytes) :
    (Wtns.WtnsFile.from_vec FS w p).header.witness_len =
      w.length % 4294967296 := rfl

/-- C9, counterexample: `from_vec` stores `witness.len() as u32`, so for
a vector of `2^32` elements the stored `witness_len` wraps to 0 and does
not equal the vector's length. -/
theorem c9_counterexample :
    (Wtns.WtnsFile.from_vec 1 (List.replicate 4294967296 [0]) [0]).header.witness_len ≠
      (List.replicate 4294967296 ([0] : Bytes)).length := by
  rw [from_vec_witness_len, List.length_replicate]
  decide

/-- C9 (amended): for `FS < 2^32` and a vector of fewer than `2^32`
elements, `from_vec w p` is exactly the document with version 1, header
field_size `FS`, prime `p`, `witness_len = w.length`, and witness `w`;
in general the two `u32` casts store `FS` and the length modulo `2^32`. -/
theorem c9_from_vec (FS : Nat) (w : List Bytes) (p : Bytes)
    (hFS : FS < 4294967296) (hw : w.length < 4294967296) :
    Wtns.WtnsFile.from_vec FS w p = ⟨1, ⟨FS, p, w.length⟩, w⟩ := by
  unfold Wtns.WtnsFile.from_vec
  rw [Nat.mod_eq_of_lt hFS, Nat.mod_eq_of_lt hw]

/-- Witness for C9's amended statement at a concrete two-element vector. -/
theorem c9_witness :
    Wtns.WtnsFile.from_vec 1 [[5], [6]] [7] = ⟨1, ⟨1, [7], 2⟩, [[5], [6]]⟩ :=
  c9_from_vec 1 [[5], [6]] [7] (by decide) (by decide)

namespace R1cs0

/-- The bijection sending the tuple-struct `Constraint` of `r1cs-file` to
the combinations-array `Constraint` of the legacy crate. -/
def toConstraint0 (c : R1cs.Constraint) : Constraint := ⟨(c.c0, c.c1, c.c2)⟩

/-- Inverse of `toConstraint0`. -/
def ofConstraint0 (c : Constraint) : R1cs.Constraint :=
  ⟨c.combinations.1, c.combinations.2.1, c.combinations.2.2⟩

/-- The induced bijection on whole documents. -/
def toFile0 (f : R1cs.R1csFile) : R1csFile :=
  ⟨f.header, f.constraints.map toConstraint0, f.map⟩

/-- Inverse of `toFile0`. -/
def ofFile0 (f : R1csFile) : R1cs.R1csFile :=
  ⟨f.header, f.constraints.map ofConstraint0, f.map⟩

theorem ofConstraint0_toConstraint0 (c : R1cs.Constraint) :
    ofConstraint0 (toConstraint0 c) = c := rfl

theorem toConstraint0_ofConstraint0 (c : Constraint) :
    toConstraint0 (ofConstraint0 c) = c := rfl

theorem constraint_parse_read (FS : Nat) (b : Bytes) :
    Constraint.parse FS b =
      Except.map (fun p => (toConstraint0 p.1, p.2)) (R1cs.Constraint.read FS b) := by
  unfold Constraint.parse R1cs.Constraint.read
  cases h0 : R1cs.readCombination FS b with
  | error e => rfl
  | ok p =>
    obtain ⟨a, b1⟩ := p
    dsimp only
    cases h1 : R1cs.readCombination FS b1 with
    | error e => rfl
    | ok q =>
      obtain ⟨bb, b2⟩ := q
      dsimp only
      cases h2 : R1cs.readCombination FS b2 with
      | error e => rfl
      | ok r => rfl

theorem parseConstraintList_readConstraintList (FS : Nat) :
    ∀ (n : Nat) (b : Bytes),
    parseConstraintList FS n b =
      Except.map (fun p => (p.1.map toConstraint0, p.2))
        (R1cs.readConstraintList FS n b) := by
  intro n
  induction n with
  | zero => intro b; rfl
  | succ n ih =>
    intro b
    unfold parseConstraintList R1cs.readConstraintList
    rw [constraint_parse_read]
    cases hc : R1cs.Constraint.read FS b with
    | error e => rfl
    | ok p =>
      obtain ⟨c, b1⟩ := p
      dsimp only [Except.map]
      rw [ih b1]
      cases hrest : R1cs.readConstraintList FS n b1 with
      | error e => rfl
      | ok q => rfl

theorem constraints_parse_read (FS n : Nat) (b : Bytes) :
    Constraints.parse FS n b =
      Except.map (fun p => (p.1.map toConstraint0, p.2))
        (R1cs.Constraints.read FS n b) := by
  unfold Constraints.parse R1cs.Constraints.read
  cases hsec : R1cs.SectionHeader.read b with
  | error e => rfl
  | ok p =>
    obtain ⟨sh, b1⟩ := p
    dsimp only
    exact parseConstraintList_readConstraintList FS n b1

theorem file_parse_read (FS : Nat) (b : Bytes) :
    R1csFile.parse FS b =
      Except.map (fun p => (toFile0 p.1, p.2)) (R1cs.R1csFile.read FS b) := by
  unfold R1csFile.parse R1cs.R1csFile.read
  cases hmg : readBytes 4 b with
  | error e => rfl
  | ok p =>
    obtain ⟨magic, b1⟩ := p
    dsimp only
    by_cases hm : magic ≠ R1cs.MAGIC
    · rw [if_pos hm, if_pos hm]; rfl
    · rw [if_neg hm, if_neg hm]
      cases hv : readU32 b1 with
      | error e => rfl
      | ok q =>
        obtain ⟨version, b2⟩ := q
        dsimp only
        by_cases hvv : version ≠ R1cs.VERSION
        · rw [if_pos hvv, if_pos hvv]; rfl
        · rw [if_neg hvv, if_neg hvv]
          cases hns : readU32 b2 with
          | error e => rfl
          | ok r =>
            obtain ⟨ns, b3⟩ := r
            dsimp only
            cases hhd : R1cs.Header.read FS b3 with
            | error e => rfl
            | ok s =>
              obtain ⟨header, b4⟩ := s
              dsimp only
              rw [constraints_parse_read]
              cases hcs : R1cs.Constraints.read FS header.n_constraints b4 with
              | error e => rfl
              | ok u =>
                obtain ⟨constraints, b5⟩ := u
                dsimp only [Except.map]
                cases hmp : R1cs.WireMap.read b5 with
                | error e => rfl
                | ok w => rfl

theorem constraint_serialize_write (c : R1cs.Constraint) :
    Constraint.serialize (toConstraint0 c) = R1cs.Constraint.write c := rfl

theorem constraint_size_write (c : R1cs.Constraint) :
    Constraint.size (toConstraint0 c) = R1cs.Constraint.size c := rfl

theorem serializeConstraintList_writeConstraintList (cs : List R1cs.Constraint) :
    serializeConstraintList (cs.map toConstraint0) =
      R1cs.writeConstraintList cs := by
  induction cs with
  | nil => rfl
  | cons c t ih =>
    simp only [List.map_cons, serializeConstraintList, R1cs.writeConstraintList]
    rw [constraint_serialize_write, ih]

theorem constraints_serialize_write (cs : List R1cs.Constraint) :
    Constraints.serialize (cs.map toConstraint0) = R1cs.Constraints.write cs := by
  unfold Constraints.serialize R1cs.Constraints.write
  rw [serializeConstraintList_writeConstraintList]
  have hsz : (cs.map toConstraint0).map Constraint.size = cs.map R1cs.Constraint.size := by
    rw [List.map_map]
    exact List.map_congr_left (fun c _ => constraint_size_write c)
  rw [hsz]

theorem file_serialize_write (FS : Nat) (f : R1cs.R1csFile) :
    R1csFile.serialize FS (toFile0 f) = R1cs.R1csFile.write FS f := by
  unfold R1csFile.serialize R1cs.R1csFile.write
  show R1cs.MAGIC ++ encodeU32 R1cs.VERSION ++ encodeU32 3 ++
      R1cs.Header.write FS f.header ++
      Constraints.serialize (f.constraints.map toConstraint0) ++
      R1cs.WireMap.write f.map = _
  rw [constraints_serialize_write]

end R1cs0

/-- C10: the two R1CS implementations are equivalent. The legacy
`R1csFile::parse` succeeds exactly when `R1csFile::read` does, producing
the corresponding document under the constraint-representation bijection
(and failing with the same error otherwise); serializing corresponding
documents yields identical bytes; and the correspondence is a bijection. -/
theorem c10_implementations_equivalent :
    (∀ (FS : Nat) (b : Bytes),
      R1cs0.R1csFile.parse FS b =
        Except.map (fun p => (R1cs0.toFile0 p.1, p.2)) (R1cs.R1csFile.read FS b)) ∧
    (∀ (FS : Nat) (f : R1cs.R1csFile),
      R1cs0.R1csFile.serialize FS (R1cs0.toFile0 f) = R1cs.R1csFile.write FS f) ∧
    (∀ f : R1cs.R1csFile, R1cs0.ofFile0 (R1cs0.toFile0 f) = f) ∧
    (∀ g : R1cs0.R1csFile, R1cs0.toFile0 (R1cs0.ofFile0 g) = g) := by
  refine ⟨R1cs0.file_parse_read, R1cs0.file_serialize_write, ?_, ?_⟩
  · intro f
    unfold R1cs0.ofFile0 R1cs0.toFile0
    dsimp only
    rw [List.map_map]
    have : R1cs0.ofConstraint0 ∘ R1cs0.toConstraint0 = id := by
      funext c; exact R1cs0.ofConstraint0_toConstraint0 c
    rw [this, List.map_id]
  · intro g
    unfold R1cs0.toFile0 R1cs0.ofFile0
    dsimp only
    rw [List.map_map]
    have : R1cs0.toConstraint0 ∘ R1cs0.ofConstraint0 = id := by
      funext c; exact R1cs0.toConstraint0_ofConstraint0 c
    rw [this, List.map_id]
